import Mathlib

/-!
# ODriveRPi: the ASCII protocol client of `src/src/ODriveRPi.cpp`

A shallow embedding of the client class `ODriveRPi::ODriveRPi` and of the
library primitives it calls, followed by theorems about it.

Conventions of the embedding.

* `std::string` is a list of characters (`Str`).  String sizes are below
  `std::string::npos`, so positions of type `size_t` are exact; the one lossy
  conversion in the source is the one to `int` in `getFeedback`.
* Integer widths are those of the LP64 data model of 64-bit Linux (the
  64-bit Raspberry Pi OS): `int` has 32 bits, `long` and `size_t` 64 bits.
* The transport `RPiSerial::RPiSerial` (its header is not part of the
  sources) is a script: the list of byte chunks that successive `recv`
  calls return, the log of the strings given to `send`, and the number of
  `recv` calls made.
* The `do ... while` loop of `readLine` takes fuel; `none` stands for a
  call that is still waiting for a newline after `fuel` receive calls.
* Floating point values are not modelled: the type of `float` values, the
  numeric part of `strtof` and the text that `operator<<` gives a `float`
  are parameters (`FloatLib`).
-/

set_option autoImplicit false

namespace ODriveRPi

/-- Contents of a `std::string`. -/
abbrev Str := List Char

/-! ## Machine integers -/

/-- Largest value of `int`. -/
def INT_MAX : Int := 2 ^ 31 - 1

/-- Smallest value of `int`. -/
def INT_MIN : Int := -(2 ^ 31)

/-- Largest value of `long`. -/
def LONG_MAX : Int := 2 ^ 63 - 1

/-- Smallest value of `long`. -/
def LONG_MIN : Int := -(2 ^ 63)

/-- Value of `std::string::npos`, the largest `size_t`. -/
def npos : Nat := 2 ^ 64 - 1

/-- Conversion of an integer value to `int`: reduction modulo `2 ^ 32` into
`[-2 ^ 31, 2 ^ 31)`. -/
def toInt32 (n : Int) : Int := (n + 2 ^ 31) % 2 ^ 32 - 2 ^ 31

/-- Conversion of an integer value to `size_t`: reduction modulo `2 ^ 64`. -/
def toSizeT (n : Int) : Nat := (n % 2 ^ 64).toNat

/-! ## Exceptions of the standard library -/

/-- The exceptions that `std::stoi`, `std::stof` and `std::string::substr`
throw. -/
inductive StdError where
  | invalid_argument
  | out_of_range
  deriving DecidableEq, Repr

deriving instance DecidableEq for Except

/-! ## `std::string` members used by the client -/

/-- The call `s.find(c)`: position of the first `c`; `none` stands for
`npos`. -/
def find (s : Str) (c : Char) : Option Nat :=
  if c ∈ s then some (s.indexOf c) else none

/-- The `size_t` value that `s.find(c)` returns. -/
def findValue (s : Str) (c : Char) : Nat :=
  match find s c with
  | some i => i
  | none => npos

/-- The call `s.substr(pos, n)`. -/
def substr (s : Str) (pos n : Nat) : Except StdError Str :=
  if s.length < pos then .error .out_of_range else .ok ((s.drop pos).take n)

/-- The call `s.substr(pos)`: the count defaults to `npos`, which exceeds
every string size, so the result runs to the end of `s`. -/
def substrFrom (s : Str) (pos : Nat) : Except StdError Str :=
  if s.length < pos then .error .out_of_range else .ok (s.drop pos)

/-! ## The transport -/

/-- Modelled from the spec: the class `RPiSerial::RPiSerial` of the header
`RPiSerial.h` is not part of the sources.  The transport, as seen by the
client, sends raw bytes and receives up to a buffer of bytes on each call,
none when its read timeout passes. -/
structure RPiSerial where
  /-- Chunks that the coming `recv` calls return, in order; once the list is
  used up a `recv` call times out and returns zero bytes. -/
  rx : List Str
  /-- Strings given to `send` so far, oldest first. -/
  tx : List Str
  /-- Number of `recv` calls made so far. -/
  recvCalls : Nat
  deriving DecidableEq, Repr

namespace RPiSerial

/-- Modelled from the spec: the call `send(text)`, which transmits the
bytes of `text`. -/
def send (serial : RPiSerial) (text : Str) : RPiSerial :=
  { serial with tx := serial.tx ++ [text] }

/-- Modelled from the spec: the call `recv(readBuf, sizeof(readBuf))`.  The
result is the bytes now in `readBuf` (their number is the value returned)
and the transport afterwards. -/
def recv (serial : RPiSerial) : Str × RPiSerial :=
  match serial.rx with
  | [] => ([], { serial with recvCalls := serial.recvCalls + 1 })
  | chunk :: rest => (chunk, { serial with rx := rest, recvCalls := serial.recvCalls + 1 })

end RPiSerial

/-! ## The line reader -/

/-- The `do ... while` loop of `readLine` (lines 93 to 101): one `recv` call,
the bytes read are appended to `response`, and the loop goes on while
`response.find('\n')` is `npos`. -/
def readLineLoop : Nat → Str → RPiSerial → Option (Str × RPiSerial)
  | 0, _, _ => none
  | fuel + 1, response, serial =>
    let (chunk, serial') := serial.recv
    let response' := response ++ chunk
    if find response' '\n' = none then readLineLoop fuel response' serial'
    else some (response', serial')

/-- The function `ODriveRPi::readLine` on the transport of the client. -/
def readLine (fuel : Nat) (serial : RPiSerial) : Option (Str × RPiSerial) :=
  match readLineLoop fuel [] serial with
  | none => none
  | some (response, serial') =>
    let newLinePos := findValue response '\n'
    some (response.take newLinePos, serial')

/-! ## Numeric text conversions of the standard library -/

/-- The call `std::to_string(n)` for a `long`, which is also the text that
`operator<<` gives an `int` under the default format flags: the decimal
digits of the value, after a minus sign when it is negative. -/
def to_string : Int → Str
  | .ofNat m => Nat.toDigits 10 m
  | .negSucc m => '-' :: Nat.toDigits 10 (m + 1)

/-- The canonical decimal text of an integer, in the words of the spec: the
decimal digits of its absolute value, the most significant first and none
for a leading zero ("0" for zero), after a minus sign when it is negative. -/
def decimalText (v : Int) : Str :=
  (if v < 0 then ['-'] else [])
    ++ (if v = 0 then ['0'] else (Nat.digits 10 v.natAbs).reverse.map Nat.digitChar)

/-- The predicate `isspace` in the C locale. -/
def isspace (c : Char) : Bool :=
  c = ' ' || c = '\t' || c = '\n' || c = '\x0b' || c = '\x0c' || c = '\r'

/-- Value of a run of decimal digits. -/
def digitsValue (ds : Str) : Nat :=
  ds.foldl (fun acc c => 10 * acc + (c.toNat - 48)) 0

/-- The sign that `strtol` and `strtof` accept before the number: whether it
is a minus sign, and the text after it. -/
def splitSign : Str → Bool × Str
  | '-' :: rest => (true, rest)
  | '+' :: rest => (false, rest)
  | s => (false, s)

/-- The range check of `std::stoi`: the value of the digits under the sign,
or `std::out_of_range` when it is not a value of `int`. -/
def checkInt (negative : Bool) (digits : Str) : Except StdError Int :=
  let value : Int := if negative then -(digitsValue digits : Int) else (digitsValue digits : Int)
  if value < INT_MIN ∨ INT_MAX < value then .error .out_of_range else .ok value

/-- The call `std::stoi(s)`, that is `strtol` in base 10 on the characters of
`s` followed by the range check of `int`: leading white space is skipped, one
sign is accepted, the longest run of decimal digits is converted and the text
after it is ignored.  No digit gives `std::invalid_argument`, a value outside
`int` gives `std::out_of_range`. -/
def stoi (s : Str) : Except StdError Int :=
  let (negative, body) := splitSign (s.dropWhile isspace)
  let digits := body.takeWhile Char.isDigit
  if digits = [] then .error .invalid_argument else checkInt negative digits

/-- The floating point part of the standard library, which the embedding
takes as a parameter: `F` is the type of `float` values. -/
structure FloatLib (F : Type) where
  /-- The constant `NAN`. -/
  nan : F
  /-- The literal `0.0f`. -/
  zero : F
  /-- The value `strtof` gives a text that starts (after white space) with
  a floating point literal; `none` when that value is out of the range of
  `float`. -/
  strtof : Str → Option F
  /-- The text that `operator<<` gives a `float` under the default format
  flags. -/
  format : F → Str

/-- Comparison of the first characters of `s` with the lower case word `w`,
ignoring case. -/
def startsWithNoCase (w s : Str) : Bool :=
  (s.take w.length).map Char.toLower == w

/-- Whether `strtof` can convert anything: after white space and one sign
the text starts with a digit, with a point followed by a digit, or with
`inf` or `nan` in any case. -/
def hasFloatLiteral (s : Str) : Bool :=
  match (splitSign (s.dropWhile isspace)).2 with
  | [] => false
  | c :: rest =>
    c.isDigit
    || (c = '.' && (match rest with | d :: _ => d.isDigit | [] => false))
    || startsWithNoCase ['i', 'n', 'f'] (c :: rest)
    || startsWithNoCase ['n', 'a', 'n'] (c :: rest)

/-- The call `std::stof(s)`: `std::invalid_argument` when no conversion can
be performed, `std::out_of_range` when the value is out of range. -/
def stof {F : Type} (L : FloatLib F) (s : Str) : Except StdError F :=
  if hasFloatLiteral s then
    match L.strtof s with
    | some v => .ok v
    | none => .error .out_of_range
  else .error .invalid_argument

/-! ## The axis state enumeration -/

/-- Modelled from the spec: the header `ODriveEnums.h` that declares the
enumeration `ODriveAxisState` is not part of the sources.  An axis state is
an integer-backed symbol; the embedding keeps its integer encoding. -/
structure ODriveAxisState where
  /-- The integer encoding. -/
  code : Int
  deriving DecidableEq, Repr

/-! ## The client -/

/-- Fields of the struct `ODriveFeedback`. -/
structure ODriveFeedback (F : Type) where
  /-- Position estimate. -/
  pos : F
  /-- Velocity estimate. -/
  vel : F
  deriving DecidableEq, Repr

/-- State of an `ODriveRPi` object: the transport it refers to and the
contents of its string stream. -/
structure Client where
  /-- The member `_serial`. -/
  _serial : RPiSerial
  /-- Contents of the member `_sstream`. -/
  _sstream : Str
  deriving DecidableEq, Repr

/-- Outcome of an operation that reads a response: `none` when the line
reader is still waiting after `fuel` receive calls, else the value returned
or the exception thrown, and the client afterwards. -/
abbrev Outcome (α : Type) := Option (Except StdError α × Client)

/-- The constructor: the string stream starts empty. -/
def new (serial : RPiSerial) : Client :=
  { _serial := serial, _sstream := [] }

/-- The function `clearErrors` (lines 15 to 17). -/
def clearErrors (c : Client) : Client :=
  { c with _serial := c._serial.send "sc\n".toList }

/-- The function `setPosition(position, velocity_feedforward,
torque_feedforward, motorNum)` (lines 27 to 31). -/
def setPosition {F : Type} (L : FloatLib F) (position velocity_feedforward torque_feedforward : F)
    (motorNum : Int) (c : Client) : Client :=
  let sstream : Str := "p ".toList ++ to_string motorNum ++ " ".toList ++ L.format position
    ++ " ".toList ++ L.format velocity_feedforward ++ " ".toList
    ++ L.format torque_feedforward ++ "\n".toList
  { _serial := c._serial.send sstream, _sstream := sstream }

/-- The function `setPosition(position, velocity_feedforward, motorNum)`
(lines 23 to 25). -/
def setPositionVel {F : Type} (L : FloatLib F) (position velocity_feedforward : F)
    (motorNum : Int) (c : Client) : Client :=
  setPosition L position velocity_feedforward L.zero motorNum c

/-- The function `setPosition(position, motorNum)` (lines 19 to 21). -/
def setPositionOnly {F : Type} (L : FloatLib F) (position : F) (motorNum : Int)
    (c : Client) : Client :=
  setPosition L position L.zero L.zero motorNum c

/-- The function `getParameterAsString` (lines 33 to 39). -/
def getParameterAsString (fuel : Nat) (path : Str) (c : Client) : Option (Str × Client) :=
  let sstream : Str := "r ".toList ++ path ++ "\n".toList
  let serial := c._serial.send sstream
  match readLine fuel serial with
  | none => none
  | some (line, serial') => some (line, { _serial := serial', _sstream := sstream })

/-- The function `setParameter(path, value)` with a string value
(lines 41 to 45). -/
def setParameter (path value : Str) (c : Client) : Client :=
  let sstream : Str := "w ".toList ++ path ++ " ".toList ++ value ++ "\n".toList
  { _serial := c._serial.send sstream, _sstream := sstream }

/-- The function `setParameter(path, value)` with a `long` value (line 137
of the header). -/
def setParameterLong (path : Str) (value : Int) (c : Client) : Client :=
  setParameter path (to_string value) c

/-- The function `setState` (lines 47 to 51): the path is built in the string
stream and copied out by `str()` before `setParameter` resets the stream. -/
def setState (requested_state : ODriveAxisState) (motorNum : Int) (c : Client) : Client :=
  let c1 : Client := { c with _sstream := "axis".toList ++ to_string motorNum ++ ".requested_state".toList }
  setParameter c1._sstream (to_string requested_state.code) c1

/-- The function `getParameterAsInt` (lines 59 to 61): the `int` that
`std::stoi` returns is widened to `long`. -/
def getParameterAsInt (fuel : Nat) (path : Str) (c : Client) : Outcome Int :=
  match getParameterAsString fuel path c with
  | none => none
  | some (line, c') => some (stoi line, c')

/-- The function `getParameterAsFloat` (lines 63 to 65). -/
def getParameterAsFloat {F : Type} (L : FloatLib F) (fuel : Nat) (path : Str) (c : Client) :
    Outcome F :=
  match getParameterAsString fuel path c with
  | none => none
  | some (line, c') => some (stof L line, c')

/-- The function `getState` (lines 53 to 57): the integer read is cast to the
enumeration type, which keeps its value. -/
def getState (fuel : Nat) (motorNum : Int) (c : Client) : Outcome ODriveAxisState :=
  let c1 : Client := { c with _sstream := "axis".toList ++ to_string motorNum ++ ".current_state".toList }
  match getParameterAsInt fuel c1._sstream c1 with
  | none => none
  | some (r, c') => some (r.map ODriveAxisState.mk, c')

/-- Lines 78 to 86 of `getFeedback`: the response line is split at the
position that `find(' ')` returns, converted to `int`.  The two members of
the result are initialised from left to right.  The sum `spacePos+1` is
taken in `int`; at the largest `int`, where C++ leaves the sum undefined, it
wraps here. -/
def parseFeedback {F : Type} (L : FloatLib F) (response : Str) :
    Except StdError (ODriveFeedback F) :=
  let spacePos : Int := toInt32 (findValue response ' ')
  if 0 ≤ spacePos then do
    let posText ← substr response 0 (toSizeT spacePos)
    let pos ← stof L posText
    let velText ← substrFrom response (toSizeT (toInt32 (spacePos + 1)))
    let vel ← stof L velText
    pure { pos := pos, vel := vel }
  else .ok { pos := L.nan, vel := L.nan }

/-- The function `getFeedback` (lines 68 to 87): one `recv` call whose bytes
are dropped, the command, one line of response, and its conversion. -/
def getFeedback {F : Type} (L : FloatLib F) (fuel : Nat) (motorNum : Int) (c : Client) :
    Outcome (ODriveFeedback F) :=
  let flushed := c._serial.recv.2
  let sstream : Str := "f ".toList ++ to_string motorNum ++ "\n".toList
  let serial := flushed.send sstream
  match readLine fuel serial with
  | none => none
  | some (response, serial') =>
    some (parseFeedback L response, { _serial := serial', _sstream := sstream })

/-- The function `getPosition` (line 96 of the header). -/
def getPosition {F : Type} (L : FloatLib F) (fuel : Nat) (motorNum : Int) (c : Client) :
    Outcome F :=
  match getFeedback L fuel motorNum c with
  | none => none
  | some (r, c') => some (r.map ODriveFeedback.pos, c')

/-- The function `getVelocity` (line 103 of the header). -/
def getVelocity {F : Type} (L : FloatLib F) (fuel : Nat) (motorNum : Int) (c : Client) :
    Outcome F :=
  match getFeedback L fuel motorNum c with
  | none => none
  | some (r, c') => some (r.map ODriveFeedback.vel, c')

/-- A float library for concrete runs: a `float` is kept as the text it was
read from. -/
def textFloats : FloatLib Str where
  nan := "nan".toList
  zero := "0".toList
  strtof := fun s => some s
  format := fun v => v

/-- A second float library for concrete runs: a `float` is a whole number
within `int` or `NAN` (`none`), only the texts that start with such a number
convert, and `operator<<` gives a whole number its decimal text. -/
def wholeFloats : FloatLib (Option Int) where
  nan := none
  zero := some 0
  strtof := fun s =>
    match stoi s with
    | .ok v => some (some v)
    | .error _ => none
  format := fun v =>
    match v with
    | some n => to_string n
    | none => "nan".toList

/-- A transport that holds the chunks `chunks` and has done nothing yet. -/
def RPiSerial.ofChunks (chunks : List String) : RPiSerial :=
  { rx := chunks.map String.toList, tx := [], recvCalls := 0 }

/-! ## Notions used in the statements -/

/-- Index, from 0, of the first chunk of a script that holds a newline (the
length of the script when no chunk holds one). -/
def firstNewlineChunk (rx : List Str) : Nat :=
  rx.findIdx (fun chunk => decide ('\n' ∈ chunk))

/-- The command that `getFeedback` sends for the axis `motorNum`. -/
def feedbackCommand (motorNum : Int) : Str :=
  "f ".toList ++ to_string motorNum ++ "\n".toList

/-- The command that `getParameterAsString` sends for `path`. -/
def readCommand (path : Str) : Str :=
  "r ".toList ++ path ++ "\n".toList

/-- The path that `setState` writes for the axis `motorNum`. -/
def requestedStatePath (motorNum : Int) : Str :=
  "axis".toList ++ to_string motorNum ++ ".requested_state".toList

/-- The path that `getState` reads for the axis `motorNum`. -/
def currentStatePath (motorNum : Int) : Str :=
  "axis".toList ++ to_string motorNum ++ ".current_state".toList

/-- The script of a long response: an empty chunk for the flush, then `n`
chunks of 256 zeros each, then the chunk " 2\n". -/
def zerosScript (n : Nat) : RPiSerial :=
  { rx := [] :: (List.replicate n (List.replicate 256 '0') ++ [" 2\n".toList]),
    tx := [], recvCalls := 0 }

/-- The command that `setPosition` sends. -/
def positionCommand {F : Type} (L : FloatLib F) (position velocity_feedforward
    torque_feedforward : F) (motorNum : Int) : Str :=
  "p ".toList ++ to_string motorNum ++ " ".toList ++ L.format position
    ++ " ".toList ++ L.format velocity_feedforward ++ " ".toList
    ++ L.format torque_feedforward ++ "\n".toList

/-- The command that `setParameter` sends for `path` and `value`. -/
def writeCommand (path value : Str) : Str :=
  "w ".toList ++ path ++ " ".toList ++ value ++ "\n".toList

/-- A transport with the pending chunks `rx` that has done nothing yet. -/
def RPiSerial.fresh (rx : List Str) : RPiSerial :=
  { rx := rx, tx := [], recvCalls := 0 }

/-- The texts that hold one newline, as their last character. -/
def EndsWithOneNewline (cmd : Str) : Prop :=
  cmd.getLast? = some '\n' ∧ cmd.count '\n' = 1

instance (cmd : Str) : Decidable (EndsWithOneNewline cmd) := by
  unfold EndsWithOneNewline
  infer_instance

/-- The public operations of the client with their arguments; the
operations that read a response carry the fuel of their line read. -/
inductive Operation (F : Type) where
  | clearErrors
  | setPosition (position velocity_feedforward torque_feedforward : F) (motorNum : Int)
  | setPositionVel (position velocity_feedforward : F) (motorNum : Int)
  | setPositionOnly (position : F) (motorNum : Int)
  | getFeedback (fuel : Nat) (motorNum : Int)
  | getPosition (fuel : Nat) (motorNum : Int)
  | getVelocity (fuel : Nat) (motorNum : Int)
  | getParameterAsString (fuel : Nat) (path : Str)
  | getParameterAsInt (fuel : Nat) (path : Str)
  | getParameterAsFloat (fuel : Nat) (path : Str)
  | setParameter (path value : Str)
  | setParameterLong (path : Str) (value : Int)
  | setState (requested_state : ODriveAxisState) (motorNum : Int)
  | getState (fuel : Nat) (motorNum : Int)

/-- The client after an operation, whether it returned a value or threw;
`none` when its line read is still waiting. -/
def Operation.run {F : Type} (L : FloatLib F) : Operation F → Client → Option Client
  | .clearErrors, c => some (ODriveRPi.clearErrors c)
  | .setPosition p v t a, c => some (ODriveRPi.setPosition L p v t a c)
  | .setPositionVel p v a, c => some (ODriveRPi.setPositionVel L p v a c)
  | .setPositionOnly p a, c => some (ODriveRPi.setPositionOnly L p a c)
  | .getFeedback fuel a, c => (ODriveRPi.getFeedback L fuel a c).map Prod.snd
  | .getPosition fuel a, c => (ODriveRPi.getPosition L fuel a c).map Prod.snd
  | .getVelocity fuel a, c => (ODriveRPi.getVelocity L fuel a c).map Prod.snd
  | .getParameterAsString fuel path, c =>
    (ODriveRPi.getParameterAsString fuel path c).map Prod.snd
  | .getParameterAsInt fuel path, c => (ODriveRPi.getParameterAsInt fuel path c).map Prod.snd
  | .getParameterAsFloat fuel path, c =>
    (ODriveRPi.getParameterAsFloat L fuel path c).map Prod.snd
  | .setParameter path value, c => some (ODriveRPi.setParameter path value c)
  | .setParameterLong path value, c => some (ODriveRPi.setParameterLong path value c)
  | .setState s a, c => some (ODriveRPi.setState s a c)
  | .getState fuel a, c => (ODriveRPi.getState fuel a c).map Prod.snd

/-- The client after a sequence of operations, the first of the list
first. -/
def runAll {F : Type} (L : FloatLib F) : List (Operation F) → Client → Option Client
  | [], c => some c
  | op :: rest, c =>
    match op.run L c with
    | none => none
    | some c' => runAll L rest c'

/-- The command of an operation: a text made from the arguments of the
operation and from nothing else. -/
def Operation.command {F : Type} (L : FloatLib F) : Operation F → Str
  | .clearErrors => "sc\n".toList
  | .setPosition p v t a => positionCommand L p v t a
  | .setPositionVel p v a => positionCommand L p v L.zero a
  | .setPositionOnly p a => positionCommand L p L.zero L.zero a
  | .getFeedback _ a => feedbackCommand a
  | .getPosition _ a => feedbackCommand a
  | .getVelocity _ a => feedbackCommand a
  | .getParameterAsString _ path => readCommand path
  | .getParameterAsInt _ path => readCommand path
  | .getParameterAsFloat _ path => readCommand path
  | .setParameter path value => writeCommand path value
  | .setParameterLong path value => writeCommand path (to_string value)
  | .setState s a => writeCommand (requestedStatePath a) (to_string s.code)
  | .getState _ a => readCommand (currentStatePath a)

/-- The operations whose path and value texts hold no newline. -/
def Operation.TextsHoldNoNewline {F : Type} : Operation F → Prop
  | .getParameterAsString _ path => '\n' ∉ path
  | .getParameterAsInt _ path => '\n' ∉ path
  | .getParameterAsFloat _ path => '\n' ∉ path
  | .setParameter path value => '\n' ∉ path ∧ '\n' ∉ value
  | .setParameterLong path _ => '\n' ∉ path
  | _ => True

/-- The scripts `l'` that come from the script `l` by inserting empty chunks
(receive calls that return zero bytes) at any places. -/
inductive EmptyReadsInserted : List Str → List Str → Prop where
  | nil : EmptyReadsInserted [] []
  | keep (chunk : Str) {l l' : List Str} :
      EmptyReadsInserted l l' → EmptyReadsInserted (chunk :: l) (chunk :: l')
  | insert {l l' : List Str} : EmptyReadsInserted l l' → EmptyReadsInserted l ([] :: l')

/-! ## Lemmas on the string members and the line reader -/

theorem find_eq_none_iff (s : Str) (c : Char) : find s c = none ↔ c ∉ s := by
  unfold find; split <;> simp_all

theorem take_indexOf (c : Char) (s : Str) :
    s.take (s.indexOf c) = s.takeWhile (fun x => x != c) := by
  induction s with
  | nil => simp
  | cons a t ih =>
    by_cases h : a = c
    · subst h; simp [List.takeWhile]
    · have h' : (a != c) = true := by simpa using h
      rw [List.indexOf_cons_ne _ h, List.take_succ_cons, ih, List.takeWhile_cons, h']
      simp

theorem take_findValue (c : Char) (s : Str) (h : c ∈ s) :
    s.take (findValue s c) = s.takeWhile (fun x => x != c) := by
  simp [findValue, find, h, take_indexOf]

theorem findValue_not_mem (c : Char) (s : Str) (h : c ∉ s) : findValue s c = npos := by
  simp [findValue, find, h]

theorem findValue_append_cons (c : Char) (before after : Str) (h : c ∉ before) :
    findValue (before ++ c :: after) c = before.length := by
  have hidx : ∀ l : Str, c ∉ l → (l ++ c :: after).indexOf c = l.length := by
    intro l
    induction l with
    | nil => intro _; simp
    | cons a t ih =>
      intro hl
      have hne : a ≠ c := fun e => hl (by simp [e])
      have ht : c ∉ t := fun e => hl (by simp [e])
      rw [List.cons_append, List.indexOf_cons_ne _ hne, ih ht]; simp
  simp [findValue, find, hidx before h]

theorem readLineLoop_spec (c : Str) (post : List Str) (hc : '\n' ∈ c) :
    ∀ (pre : List Str) (fuel : Nat) (acc : Str) (serial : RPiSerial),
      '\n' ∉ acc → (∀ p ∈ pre, '\n' ∉ p) → serial.rx = pre ++ c :: post → pre.length < fuel →
      readLineLoop fuel acc serial
        = some (acc ++ pre.flatten ++ c,
            { serial with rx := post, recvCalls := serial.recvCalls + pre.length + 1 }) := by
  intro pre
  induction pre with
  | nil =>
    intro fuel acc serial hacc _ hrx hfuel
    obtain ⟨n, rfl⟩ : ∃ n, fuel = n + 1 := ⟨fuel - 1, by simp at hfuel; omega⟩
    simp [readLineLoop, RPiSerial.recv, hrx, find_eq_none_iff, hc]
  | cons p pre ih =>
    intro fuel acc serial hacc hpre hrx hfuel
    obtain ⟨n, rfl⟩ : ∃ n, fuel = n + 1 := ⟨fuel - 1, by simp at hfuel; omega⟩
    have hp : '\n' ∉ p := hpre p (by simp)
    have hacc' : '\n' ∉ acc ++ p := by simp [hacc, hp]
    simp only [readLineLoop, RPiSerial.recv, hrx, List.cons_append]
    rw [if_pos ((find_eq_none_iff _ _).2 hacc')]
    rw [ih n (acc ++ p) _ hacc' (fun q hq => hpre q (by simp [hq])) rfl (by simpa using hfuel)]
    simp [Nat.add_comm, Nat.add_left_comm, Nat.add_assoc]

/-- The line reader on a script whose first chunk with a newline is `c`:
with more fuel than chunks before `c` it returns the text before the first
newline of the chunks up to `c`, and leaves the chunks after `c`. -/
theorem readLine_spec (serial : RPiSerial) (pre : List Str) (c : Str) (post : List Str)
    (fuel : Nat) (hrx : serial.rx = pre ++ c :: post) (hpre : ∀ p ∈ pre, '\n' ∉ p)
    (hc : '\n' ∈ c) (hfuel : pre.length < fuel) :
    readLine fuel serial
      = some (((pre ++ [c]).flatten).takeWhile (fun x => x != '\n'),
          { serial with rx := post, recvCalls := serial.recvCalls + pre.length + 1 }) := by
  unfold readLine
  rw [readLineLoop_spec c post hc pre fuel [] serial (by simp) hpre hrx hfuel]
  have hmem : '\n' ∈ ([] : Str) ++ pre.flatten ++ c := by simp [hc]
  simp only [take_findValue _ _ hmem]
  simp

/-! ## Lemmas on the numeric text conversions -/

theorem digitChar_spec :
    ∀ d, d < 10 → (Nat.digitChar d).isDigit = true ∧ (Nat.digitChar d).toNat - 48 = d := by
  decide

theorem digitsValue_append (a b : Str) :
    digitsValue (a ++ b) = b.foldl (fun acc c => 10 * acc + (c.toNat - 48)) (digitsValue a) := by
  simp [digitsValue, List.foldl_append]

theorem toDigitsCore_spec :
    ∀ (fuel n : Nat) (ds : Str), n < fuel →
      ∃ body : Str, Nat.toDigitsCore 10 fuel n ds = body ++ ds ∧ body ≠ [] ∧
        (∀ c ∈ body, c.isDigit = true) ∧ digitsValue body = n := by
  intro fuel
  induction fuel with
  | zero => intro n ds h; omega
  | succ fuel ih =>
    intro n ds h
    have hd := digitChar_spec (n % 10) (Nat.mod_lt _ (by decide))
    by_cases h0 : n / 10 = 0
    · refine ⟨[Nat.digitChar (n % 10)], ?_, by simp, ?_, ?_⟩
      · simp [Nat.toDigitsCore, h0]
      · intro c hc; simp at hc; subst hc; exact hd.1
      · have hn : n % 10 = n := Nat.mod_eq_of_lt (by omega)
        simp only [digitsValue, List.foldl, Nat.mul_zero, Nat.zero_add]
        rw [hd.2, hn]
    · obtain ⟨body, hbody, _, hdig, hval⟩ :=
        ih (n / 10) (Nat.digitChar (n % 10) :: ds) (by omega)
      refine ⟨body ++ [Nat.digitChar (n % 10)], ?_, by simp, ?_, ?_⟩
      · simp [Nat.toDigitsCore, h0, hbody]
      · intro c hc
        rcases List.mem_append.1 hc with hc | hc
        · exact hdig c hc
        · simp at hc; subst hc; exact hd.1
      · rw [digitsValue_append, hval]
        simp [hd.2]
        omega

theorem toDigits_spec (n : Nat) :
    Nat.toDigits 10 n ≠ [] ∧ (∀ c ∈ Nat.toDigits 10 n, c.isDigit = true) ∧
      digitsValue (Nat.toDigits 10 n) = n := by
  obtain ⟨body, hbody, hne, hdig, hval⟩ := toDigitsCore_spec (n + 1) n [] (by omega)
  have h : Nat.toDigits 10 n = body := by simpa [Nat.toDigits] using hbody
  rw [h]; exact ⟨hne, hdig, hval⟩

theorem isDigit_not_isspace (c : Char) (h : c.isDigit = true) : isspace c = false := by
  cases hs : isspace c with
  | false => rfl
  | true =>
    exfalso
    simp only [isspace, Bool.or_eq_true, decide_eq_true_eq] at hs
    rcases hs with ((((hs | hs) | hs) | hs) | hs) | hs <;> subst hs <;> revert h <;> decide

theorem dropWhile_isspace_append (ws t : Str) (hws : ∀ c ∈ ws, isspace c = true)
    (ht : ∀ c ∈ t.head?, isspace c = false) : (ws ++ t).dropWhile isspace = t := by
  induction ws with
  | nil =>
    cases t with
    | nil => rfl
    | cons a r => simp [List.dropWhile, ht a (by simp)]
  | cons a r ih =>
    have ha : isspace a = true := hws a (by simp)
    rw [List.cons_append, List.dropWhile_cons, if_pos ha]
    exact ih (fun c hc => hws c (by simp [hc]))

theorem takeWhile_isDigit_append (digits rest : Str) (hd : ∀ c ∈ digits, c.isDigit = true)
    (hr : ∀ c ∈ rest.head?, c.isDigit = false) :
    (digits ++ rest).takeWhile Char.isDigit = digits := by
  induction digits with
  | nil =>
    cases rest with
    | nil => rfl
    | cons a r => simp [List.takeWhile, hr a (by simp)]
  | cons a r ih =>
    have ha : a.isDigit = true := hd a (by simp)
    rw [List.cons_append, List.takeWhile_cons, if_pos ha, ih (fun c hc => hd c (by simp [hc]))]

/-- The function `stoi` on white space, a sign, a run of digits that is not
empty and a rest that does not start with a digit. -/
theorem stoi_parts (ws sign digits rest : Str) (hws : ∀ c ∈ ws, isspace c = true)
    (hsign : sign = [] ∨ sign = ['+'] ∨ sign = ['-']) (hne : digits ≠ [])
    (hd : ∀ c ∈ digits, c.isDigit = true) (hr : ∀ c ∈ rest.head?, c.isDigit = false) :
    stoi (ws ++ sign ++ digits ++ rest) = checkInt (decide (sign = ['-'])) digits := by
  obtain ⟨d, ds, rfl⟩ : ∃ d ds, digits = d :: ds := by
    cases digits with
    | nil => exact absurd rfl hne
    | cons d ds => exact ⟨d, ds, rfl⟩
  have hdd : d.isDigit = true := hd d (by simp)
  have hdp : d ≠ '+' := by rintro rfl; revert hdd; decide
  have hdm : d ≠ '-' := by rintro rfl; revert hdd; decide
  have htake := takeWhile_isDigit_append (d :: ds) rest hd hr
  have hdrop : (ws ++ sign ++ (d :: ds) ++ rest).dropWhile isspace = sign ++ (d :: ds) ++ rest := by
    have hgen := dropWhile_isspace_append ws (sign ++ (d :: ds) ++ rest) hws
    simp only [List.append_assoc] at hgen ⊢
    apply hgen
    rcases hsign with h | h | h <;> subst h
    · intro c hc; simp at hc; subst hc; exact isDigit_not_isspace _ hdd
    · intro c hc; simp at hc; subst hc; decide
    · intro c hc; simp at hc; subst hc; decide
  unfold stoi
  rw [hdrop]
  rcases hsign with h | h | h <;> subst h
  · have hs : splitSign ([] ++ (d :: ds) ++ rest) = (false, (d :: ds) ++ rest) := by
      simp only [List.nil_append, List.cons_append]
      unfold splitSign
      split <;> simp_all
    simp only [hs, htake]
    simp [checkInt]
  · have hs : splitSign (['+'] ++ (d :: ds) ++ rest) = (false, (d :: ds) ++ rest) := by
      simp [splitSign]
    simp only [hs, htake]
    simp [checkInt]
  · have hs : splitSign (['-'] ++ (d :: ds) ++ rest) = (true, (d :: ds) ++ rest) := by
      simp [splitSign]
    simp only [hs, htake]
    simp [checkInt]

/-- Reading back with `stoi` what `to_string` wrote, for a value of `int`. -/
theorem stoi_to_string (n : Int) (hlo : INT_MIN ≤ n) (hhi : n ≤ INT_MAX) :
    stoi (to_string n) = .ok n := by
  cases n with
  | ofNat m =>
    obtain ⟨hne, hdig, hval⟩ := toDigits_spec m
    have h := stoi_parts [] [] (Nat.toDigits 10 m) [] (by simp) (by simp) hne hdig (by simp)
    simp only [List.nil_append, List.append_nil] at h
    simp only [to_string, h, checkInt, hval]
    simp only [INT_MIN, INT_MAX, Int.ofNat_eq_coe] at *
    simp
    constructor <;> omega
  | negSucc m =>
    obtain ⟨hne, hdig, hval⟩ := toDigits_spec (m + 1)
    have h := stoi_parts [] ['-'] (Nat.toDigits 10 (m + 1)) [] (by simp) (by simp) hne hdig
      (by simp)
    simp only [List.nil_append, List.append_nil, List.singleton_append] at h
    simp only [to_string, h, checkInt, hval]
    have e : Int.negSucc m = -1 + -(m : Int) := by rw [Int.negSucc_eq]; omega
    simp only [INT_MIN, INT_MAX, e] at *
    simp
    constructor <;> omega

/-! ## Lemmas on the feedback conversion -/

theorem toInt32_of_lt (n : Nat) (h : n < 2 ^ 31) : toInt32 (n : Int) = (n : Int) := by
  unfold toInt32
  have h' : (n : Int) < 2 ^ 31 := by exact_mod_cast h
  omega

theorem parseFeedback_of_neg {F : Type} (L : FloatLib F) (response : Str)
    (h : toInt32 (findValue response ' ') < 0) :
    parseFeedback L response = .ok { pos := L.nan, vel := L.nan } := by
  unfold parseFeedback
  simp only []
  rw [if_neg (by omega)]

theorem parseFeedback_no_space {F : Type} (L : FloatLib F) (response : Str)
    (h : ' ' ∉ response) :
    parseFeedback L response = .ok { pos := L.nan, vel := L.nan } := by
  apply parseFeedback_of_neg
  rw [findValue_not_mem _ _ h]
  decide

theorem parseFeedback_split {F : Type} (L : FloatLib F) (before after : Str)
    (hb : ' ' ∉ before) (hlen : before.length + 1 < 2 ^ 31) :
    parseFeedback L (before ++ ' ' :: after)
      = (do
          let pos ← stof L before
          let vel ← stof L after
          pure { pos := pos, vel := vel }) := by
  have h1 : toInt32 (before.length : Int) = (before.length : Int) :=
    toInt32_of_lt _ (by omega)
  have h2 : toInt32 ((before.length : Int) + 1) = ((before.length + 1 : Nat) : Int) := by
    have := toInt32_of_lt (before.length + 1) hlen
    simpa using this
  have h3 : toSizeT (before.length : Int) = before.length := by
    unfold toSizeT; omega
  have h4 : toSizeT ((before.length + 1 : Nat) : Int) = before.length + 1 := by
    unfold toSizeT; omega
  unfold parseFeedback
  simp only [findValue_append_cons _ _ _ hb, h1, h2, h3, h4]
  rw [if_pos (by omega)]
  have h5 : substr (before ++ ' ' :: after) 0 before.length = .ok before := by
    simp [substr]
  have h6 : substrFrom (before ++ ' ' :: after) (before.length + 1) = .ok after := by
    simp [substrFrom]
  rw [h5, h6]
  rfl

theorem flatten_replicate_replicate (n m : Nat) (x : Char) :
    (List.replicate n (List.replicate m x)).flatten = List.replicate (n * m) x := by
  induction n with
  | zero => simp
  | succ n ih =>
    rw [List.replicate_succ, List.flatten_cons, ih, Nat.succ_mul, Nat.add_comm (n * m) m,
      List.replicate_add]

/-! ## The line reader (C1) -/

/-- A script in which some chunk holds a newline splits at the first such
chunk. -/
theorem exists_first_newline_chunk (rx : List Str) (h : ∃ c ∈ rx, '\n' ∈ c) :
    ∃ (pre : List Str) (c : Str) (post : List Str),
      rx = pre ++ c :: post ∧ (∀ p ∈ pre, '\n' ∉ p) ∧ '\n' ∈ c := by
  induction rx with
  | nil => simp at h
  | cons a t ih =>
    by_cases ha : '\n' ∈ a
    · exact ⟨[], a, t, rfl, by simp, ha⟩
    · obtain ⟨c, hc, hnl⟩ := h
      have hct : c ∈ t := by
        rcases List.mem_cons.1 hc with rfl | hct
        · exact absurd hnl ha
        · exact hct
      obtain ⟨pre, c', post, hrx, hpre, hc'⟩ := ih ⟨c, hct, hnl⟩
      refine ⟨a :: pre, c', post, by rw [hrx]; rfl, ?_, hc'⟩
      intro p hp
      rcases List.mem_cons.1 hp with rfl | hp
      · exact ha
      · exact hpre p hp

theorem firstNewlineChunk_append (pre : List Str) (c : Str) (post : List Str)
    (hpre : ∀ p ∈ pre, '\n' ∉ p) (hc : '\n' ∈ c) :
    firstNewlineChunk (pre ++ c :: post) = pre.length := by
  induction pre with
  | nil => simp [firstNewlineChunk, List.findIdx_cons, hc]
  | cons a t ih =>
    have ha : '\n' ∉ a := hpre a (by simp)
    have ht := ih (fun p hp => hpre p (by simp [hp]))
    simp only [firstNewlineChunk] at ht
    simp [firstNewlineChunk, List.findIdx_cons, ha, ht]

/-- C1: when some chunk that the coming `recv` calls return holds a
newline, and `k` is the index of the first such chunk, then `readLine` (with
more fuel than `k`) returns: it receives the chunks up to that one, its value
is the text before the first newline of their concatenation, and the later
chunks stay in the transport. -/
theorem readLine_returns_text_before_first_newline (serial : RPiSerial) (fuel : Nat)
    (h : ∃ c ∈ serial.rx, '\n' ∈ c) (hfuel : firstNewlineChunk serial.rx < fuel) :
    readLine fuel serial
      = some (((serial.rx.take (firstNewlineChunk serial.rx + 1)).flatten).takeWhile
            (fun x => x != '\n'),
          { serial with
            rx := serial.rx.drop (firstNewlineChunk serial.rx + 1),
            recvCalls := serial.recvCalls + firstNewlineChunk serial.rx + 1 }) := by
  obtain ⟨pre, c, post, hrx, hpre, hc⟩ := exists_first_newline_chunk serial.rx h
  have hk : firstNewlineChunk serial.rx = pre.length := by
    rw [hrx]; exact firstNewlineChunk_append pre c post hpre hc
  rw [hk] at hfuel ⊢
  rw [readLine_spec serial pre c post fuel hrx hpre hc hfuel, hrx]
  have htake : (pre ++ c :: post).take (pre.length + 1) = pre ++ [c] := by
    rw [List.take_append_eq_append_take]
    simp
  have hdrop : (pre ++ c :: post).drop (pre.length + 1) = post := by
    rw [List.drop_append_eq_append_drop]
    simp
  rw [htake, hdrop]

/-- C1 at the chunks "ab", "c\n", "d": the line is "abc". -/
theorem readLine_returns_text_before_first_newline_witness :
    readLine 2 (RPiSerial.ofChunks ["ab", "c\n", "d"])
      = some ("abc".toList, { rx := ["d".toList], tx := [], recvCalls := 2 }) :=
  (readLine_returns_text_before_first_newline (RPiSerial.ofChunks ["ab", "c\n", "d"]) 2
    (by decide) (by decide)).trans (by decide)

/-! ## The feedback query (C2, C3, C4) -/

/-- The split of C2 where the `int` of line 78 holds the position: when the
response line is `before`, a space, `after`, with no space in `before`, and
the space lies below position `2 ^ 31 - 1`, then `getFeedback` converts
`before` to the position and `after`, all the text after that first space,
to the velocity, in this order, and an exception of either conversion is the
outcome. -/
theorem getFeedback_splits_at_first_space {F : Type} (L : FloatLib F) (fuel : Nat)
    (motorNum : Int) (c : Client) (before after : Str) (serial' : RPiSerial)
    (hread : readLine fuel (c._serial.recv.2.send (feedbackCommand motorNum))
      = some (before ++ ' ' :: after, serial'))
    (hb : ' ' ∉ before) (hlen : before.length + 1 < 2 ^ 31) :
    getFeedback L fuel motorNum c
      = some ((do
            let pos ← stof L before
            let vel ← stof L after
            pure { pos := pos, vel := vel }),
          { _serial := serial', _sstream := feedbackCommand motorNum }) := by
  unfold getFeedback
  simp only [feedbackCommand] at hread ⊢
  rw [hread]
  simp only [parseFeedback_split L before after hb hlen]

/-- The split at the response lines "1.5 -2.25" and "1 2 3": the position
text is "1.5" and "1", the velocity text "-2.25" and "2 3". -/
theorem getFeedback_splits_at_first_space_witness :
    getFeedback textFloats 2 0 (new (RPiSerial.ofChunks ["", "1.5 -2.25\n"]))
      = some (.ok { pos := "1.5".toList, vel := "-2.25".toList },
          { _serial := { rx := [], tx := ["f 0\n".toList], recvCalls := 2 },
            _sstream := "f 0\n".toList })
    ∧ getFeedback textFloats 2 0 (new (RPiSerial.ofChunks ["", "1 2 3\n"]))
      = some (.ok { pos := "1".toList, vel := "2 3".toList },
          { _serial := { rx := [], tx := ["f 0\n".toList], recvCalls := 2 },
            _sstream := "f 0\n".toList }) :=
  ⟨(getFeedback_splits_at_first_space textFloats 2 0 (new (RPiSerial.ofChunks ["", "1.5 -2.25\n"]))
      "1.5".toList "-2.25".toList { rx := [], tx := ["f 0\n".toList], recvCalls := 2 }
      (by decide) (by decide) (by decide)).trans (by decide),
    (getFeedback_splits_at_first_space textFloats 2 0 (new (RPiSerial.ofChunks ["", "1 2 3\n"]))
      "1".toList "2 3".toList { rx := [], tx := ["f 0\n".toList], recvCalls := 2 }
      (by decide) (by decide) (by decide)).trans (by decide)⟩

theorem not_mem_replicate_zero (c : Char) (h : c ≠ '0') (n : Nat) :
    c ∉ List.replicate n '0' := by
  intro hmem
  exact h (List.eq_of_mem_replicate hmem)

theorem readLine_zerosScript (n : Nat) :
    readLine (n + 1) ((zerosScript n).recv.2.send (feedbackCommand 0))
      = some (List.replicate (n * 256) '0' ++ ' ' :: "2".toList,
          { rx := [], tx := ["f 0\n".toList], recvCalls := n + 2 }) := by
  have hpre : ∀ p ∈ List.replicate n (List.replicate 256 '0'), '\n' ∉ p := by
    intro p hp
    rw [List.eq_of_mem_replicate hp]
    exact not_mem_replicate_zero _ (by decide) _
  have h := readLine_spec ((zerosScript n).recv.2.send (feedbackCommand 0))
    (List.replicate n (List.replicate 256 '0')) " 2\n".toList [] (n + 1) rfl hpre
    (by decide) (by rw [List.length_replicate]; exact Nat.lt_succ_self _)
  rw [h, List.flatten_append, flatten_replicate_replicate, List.length_replicate]
  have hzs : ∀ z ∈ List.replicate (n * 256) '0', (z != '\n') = true := by
    intro z hz
    rw [List.eq_of_mem_replicate hz]
    decide
  rw [List.takeWhile_append_of_pos hzs]
  have hrecv : ((zerosScript n).recv.2.send (feedbackCommand 0)).recvCalls + n + 1 = n + 2 := by
    show 0 + 1 + n + 1 = n + 2
    omega
  rw [hrecv]
  rfl

theorem stof_zeros (n : Nat) (hn : 0 < n) :
    stof textFloats (List.replicate n '0') = .ok (List.replicate n '0') := by
  obtain ⟨m, rfl⟩ : ∃ m, n = m + 1 := ⟨n - 1, by omega⟩
  have hlit : hasFloatLiteral (List.replicate (m + 1) '0') = true := by
    rw [List.replicate_succ]
    rfl
  unfold stof
  rw [if_pos hlit]
  rfl

theorem nan_ne_zeros (n : Nat) : textFloats.nan ≠ List.replicate n '0' := by
  intro h
  have hmem : 'n' ∈ List.replicate n '0' := by
    rw [← h]
    decide
  exact not_mem_replicate_zero 'n' (by decide) n hmem

theorem getFeedback_zerosScript (n : Nat) (h : toInt32 ((n * 256 : Nat) : Int) < 0) :
    getFeedback textFloats (n + 1) 0 (new (zerosScript n))
      = some (.ok { pos := textFloats.nan, vel := textFloats.nan },
          { _serial := { rx := [], tx := ["f 0\n".toList], recvCalls := n + 2 },
            _sstream := "f 0\n".toList }) := by
  have hfeed : (new (zerosScript n))._serial.recv.2.send
      ("f ".toList ++ to_string 0 ++ "\n".toList)
        = (zerosScript n).recv.2.send (feedbackCommand 0) := rfl
  unfold getFeedback
  simp only [hfeed, readLine_zerosScript]
  rw [parseFeedback_of_neg]
  · rfl
  · rw [findValue_append_cons _ _ _ (not_mem_replicate_zero _ (by decide) _),
      List.length_replicate]
    exact h

/-- C2 fails on the code: line 78 keeps the `size_t` position of the first
space in an `int`.  The response line of `2 ^ 31` zeros, a space and "2",
which arrives as `2 ^ 23` chunks of 256 bytes and a last chunk, has its
first space at position `2 ^ 31`, which is `-2 ^ 31` as an `int`;
`getFeedback` takes the branch for a line with no space and returns the pair
of `NAN`, although the text before the first space and the text after it
both convert. -/
theorem getFeedback_first_space_counterexample :
    2 ^ 23 * 256 = 2 ^ 31
    ∧ readLine (2 ^ 23 + 1) ((zerosScript (2 ^ 23)).recv.2.send (feedbackCommand 0))
      = some (List.replicate (2 ^ 23 * 256) '0' ++ ' ' :: "2".toList,
          { rx := [], tx := ["f 0\n".toList], recvCalls := 2 ^ 23 + 2 })
    ∧ ' ' ∉ List.replicate (2 ^ 23 * 256) '0'
    ∧ stof textFloats (List.replicate (2 ^ 23 * 256) '0')
      = .ok (List.replicate (2 ^ 23 * 256) '0')
    ∧ stof textFloats "2".toList = .ok "2".toList
    ∧ getFeedback textFloats (2 ^ 23 + 1) 0 (new (zerosScript (2 ^ 23)))
      = some (.ok { pos := textFloats.nan, vel := textFloats.nan },
          { _serial := { rx := [], tx := ["f 0\n".toList], recvCalls := 2 ^ 23 + 2 },
            _sstream := "f 0\n".toList })
    ∧ textFloats.nan ≠ List.replicate (2 ^ 23 * 256) '0' :=
  ⟨by decide, readLine_zerosScript (2 ^ 23), not_mem_replicate_zero _ (by decide) _,
    stof_zeros (2 ^ 23 * 256) (by decide), by decide,
    getFeedback_zerosScript (2 ^ 23) (by decide), nan_ne_zeros _⟩

/-- C3: when the response line holds no space, `getFeedback` returns the
feedback whose two members are `NAN`; no exception is thrown. -/
theorem getFeedback_no_space_gives_nan {F : Type} (L : FloatLib F) (fuel : Nat)
    (motorNum : Int) (c : Client) (line : Str) (serial' : RPiSerial)
    (hread : readLine fuel (c._serial.recv.2.send (feedbackCommand motorNum))
      = some (line, serial'))
    (hline : ' ' ∉ line) :
    getFeedback L fuel motorNum c
      = some (.ok { pos := L.nan, vel := L.nan },
          { _serial := serial', _sstream := feedbackCommand motorNum }) := by
  unfold getFeedback
  simp only [feedbackCommand] at hread ⊢
  rw [hread]
  simp only [parseFeedback_no_space L line hline]

/-- C3 at the response line "1.5" and at the empty line. -/
theorem getFeedback_no_space_gives_nan_witness :
    getFeedback textFloats 2 0 (new (RPiSerial.ofChunks ["", "1.5\n"]))
      = some (.ok { pos := "nan".toList, vel := "nan".toList },
          { _serial := { rx := [], tx := ["f 0\n".toList], recvCalls := 2 },
            _sstream := "f 0\n".toList })
    ∧ getFeedback textFloats 2 0 (new (RPiSerial.ofChunks ["", "\n"]))
      = some (.ok { pos := "nan".toList, vel := "nan".toList },
          { _serial := { rx := [], tx := ["f 0\n".toList], recvCalls := 2 },
            _sstream := "f 0\n".toList }) :=
  ⟨(getFeedback_no_space_gives_nan textFloats 2 0 (new (RPiSerial.ofChunks ["", "1.5\n"]))
      "1.5".toList { rx := [], tx := ["f 0\n".toList], recvCalls := 2 }
      (by decide) (by decide)).trans (by decide),
    (getFeedback_no_space_gives_nan textFloats 2 0 (new (RPiSerial.ofChunks ["", "\n"]))
      [] { rx := [], tx := ["f 0\n".toList], recvCalls := 2 }
      (by decide) (by decide)).trans (by decide)⟩

/-- C4 fails on the code: on the response lines "a b" and " ", which hold a
space and a field that is no number, `getFeedback` throws
`std::invalid_argument` and returns no feedback, whatever the float
library. -/
theorem getFeedback_non_numeric_field_throws {F : Type} (L : FloatLib F) :
    getFeedback L 2 0 (new (RPiSerial.ofChunks ["", "a b\n"]))
      = some (.error .invalid_argument,
          { _serial := { rx := [], tx := ["f 0\n".toList], recvCalls := 2 },
            _sstream := "f 0\n".toList })
    ∧ getFeedback L 2 0 (new (RPiSerial.ofChunks ["", " \n"]))
      = some (.error .invalid_argument,
          { _serial := { rx := [], tx := ["f 0\n".toList], recvCalls := 2 },
            _sstream := "f 0\n".toList }) := by
  constructor <;> rfl

/-! ## Integer parameters (C5, C6) -/

theorem getParameterAsInt_eq (fuel : Nat) (path : Str) (c c' : Client) (line : Str)
    (hread : getParameterAsString fuel path c = some (line, c')) :
    getParameterAsInt fuel path c = some (stoi line, c') := by
  unfold getParameterAsInt
  rw [hread]

/-- C6 fails on the code: 2147483648 is a value of `long`, `setParameter`
with a `long` writes it as "2147483648", and on that response line
`getParameterAsInt` throws `std::out_of_range` instead of returning it. -/
theorem getParameterAsInt_long_value_throws :
    LONG_MIN ≤ 2147483648 ∧ (2147483648 : Int) ≤ LONG_MAX
    ∧ (setParameterLong "axis0.encoder.shadow_count".toList 2147483648
        (new (RPiSerial.ofChunks [])))._serial.tx
      = ["w axis0.encoder.shadow_count 2147483648\n".toList]
    ∧ getParameterAsInt 1 "axis0.encoder.shadow_count".toList
        (new (RPiSerial.ofChunks ["2147483648\n"]))
      = some (.error .out_of_range,
          { _serial := { rx := [], tx := ["r axis0.encoder.shadow_count\n".toList],
                         recvCalls := 1 },
            _sstream := "r axis0.encoder.shadow_count\n".toList }) := by
  refine ⟨by decide, by decide, by decide, by decide⟩

/-- Reading back a value of `int`: when the response line is the text that
`to_string` gives `n`, `getParameterAsInt` returns `n`. -/
theorem getParameterAsInt_reads_back_int (fuel : Nat) (path : Str) (c c' : Client) (n : Int)
    (hlo : INT_MIN ≤ n) (hhi : n ≤ INT_MAX)
    (hread : getParameterAsString fuel path c = some (to_string n, c')) :
    getParameterAsInt fuel path c = some (.ok n, c') := by
  rw [getParameterAsInt_eq fuel path c c' _ hread, stoi_to_string n hlo hhi]

/-! ## The axis state (C7, C8) -/

/-- C7 fails on the code: on the response line "abc" `getState` throws
`std::invalid_argument` and returns no state; on "99" it returns the state
of encoding 99, whatever the enumeration declares. -/
theorem getState_bad_response_throws :
    getState 1 0 (new (RPiSerial.ofChunks ["abc\n"]))
      = some (.error .invalid_argument,
          { _serial := { rx := [], tx := ["r axis0.current_state\n".toList], recvCalls := 1 },
            _sstream := "r axis0.current_state\n".toList })
    ∧ getState 1 0 (new (RPiSerial.ofChunks ["99\n"]))
      = some (.ok { code := 99 },
          { _serial := { rx := [], tx := ["r axis0.current_state\n".toList], recvCalls := 1 },
            _sstream := "r axis0.current_state\n".toList }) := by
  constructor <;> decide

/-- C8: the enumeration is a list `enumerators` of encodings, each a value
of `int`.  For a state `s` of the enumeration, `setState` writes the text
`to_string s.code` as the value, and when the response line to `getState` is
that text, `getState` returns `s`. -/
theorem getState_reverses_setState (enumerators : List Int)
    (henum : ∀ e ∈ enumerators, INT_MIN ≤ e ∧ e ≤ INT_MAX)
    (s : ODriveAxisState) (hs : s.code ∈ enumerators) (motorNum : Int) (fuel : Nat)
    (c0 c : Client) (serial' : RPiSerial)
    (hread : readLine fuel (c._serial.send (readCommand (currentStatePath motorNum)))
      = some (to_string s.code, serial')) :
    (setState s motorNum c0)._serial.tx
      = c0._serial.tx ++ ["w ".toList ++ requestedStatePath motorNum ++ " ".toList
          ++ to_string s.code ++ "\n".toList]
    ∧ getState fuel motorNum c
      = some (.ok s, { _serial := serial', _sstream := readCommand (currentStatePath motorNum) }) := by
  refine ⟨rfl, ?_⟩
  unfold getState getParameterAsInt getParameterAsString
  simp only [readCommand, currentStatePath] at hread ⊢
  rw [hread]
  simp only [stoi_to_string s.code (henum _ hs).1 (henum _ hs).2]
  rfl

/-- C8 at the state of encoding 8 and the response line "8". -/
theorem getState_reverses_setState_witness :
    (setState { code := 8 } 0 (new (RPiSerial.ofChunks [])))._serial.tx
      = ["w axis0.requested_state 8\n".toList]
    ∧ getState 1 0 (new (RPiSerial.ofChunks ["8\n"]))
      = some (.ok { code := 8 },
          { _serial := { rx := [], tx := ["r axis0.current_state\n".toList], recvCalls := 1 },
            _sstream := "r axis0.current_state\n".toList }) :=
  (getState_reverses_setState [0, 1, 2, 3, 4, 6, 7, 8] (by decide) { code := 8 } (by decide) 0 1
    (new (RPiSerial.ofChunks [])) (new (RPiSerial.ofChunks ["8\n"]))
    { rx := [], tx := ["r axis0.current_state\n".toList], recvCalls := 1 } (by decide))

/-! ## Write-only commands (C9, C10) -/

/-- C9: when `operator<<` gives `0.0f` the text "0", `setPosition(p, a)`
appends one string to the log of writes, namely "p ", the decimal text of
`a`, a space, the text of `p` and " 0 0\n"; it leaves the chunks to receive
and the count of `recv` calls as they were; and it leaves the client as
`setPosition(p, 0, 0, a)` does. -/
theorem setPosition_two_arguments {F : Type} (L : FloatLib F) (p : F) (a : Int) (c : Client)
    (hzero : L.format L.zero = "0".toList) :
    (setPositionOnly L p a c)._serial
      = { c._serial with
          tx := c._serial.tx
            ++ ["p ".toList ++ to_string a ++ " ".toList ++ L.format p ++ " 0 0\n".toList] }
    ∧ setPositionOnly L p a c = setPosition L p L.zero L.zero a c := by
  refine ⟨?_, rfl⟩
  simp [setPositionOnly, setPosition, RPiSerial.send, hzero]

/-- C9 at the position "1.5" and the axis 1. -/
theorem setPosition_two_arguments_witness :
    (setPositionOnly textFloats "1.5".toList 1 (new (RPiSerial.ofChunks ["x"])))._serial
      = { rx := ["x".toList], tx := ["p 1 1.5 0 0\n".toList], recvCalls := 0 }
    ∧ setPositionOnly textFloats "1.5".toList 1 (new (RPiSerial.ofChunks ["x"]))
      = setPosition textFloats "1.5".toList "0".toList "0".toList 1
          (new (RPiSerial.ofChunks ["x"])) :=
  setPosition_two_arguments textFloats "1.5".toList 1 (new (RPiSerial.ofChunks ["x"])) rfl

theorem toDigitsCore_digits :
    ∀ (fuel n : Nat) (ds : Str), 0 < n → n < fuel →
      Nat.toDigitsCore 10 fuel n ds = ((Nat.digits 10 n).reverse.map Nat.digitChar) ++ ds := by
  intro fuel
  induction fuel with
  | zero => intro n ds _ h; omega
  | succ fuel ih =>
    intro n ds hn h
    rw [Nat.digits_def' (by decide) hn]
    by_cases h0 : n / 10 = 0
    · simp [Nat.toDigitsCore, h0]
    · simp [Nat.toDigitsCore, h0, ih (n / 10) _ (Nat.pos_of_ne_zero h0) (by omega)]

theorem toDigits_digits (n : Nat) (hn : 0 < n) :
    Nat.toDigits 10 n = (Nat.digits 10 n).reverse.map Nat.digitChar := by
  have h := toDigitsCore_digits (n + 1) n [] hn (by omega)
  simpa [Nat.toDigits] using h

/-- The function `to_string` gives the canonical decimal text. -/
theorem to_string_eq_decimalText (v : Int) : to_string v = decimalText v := by
  cases v with
  | ofNat m =>
    cases m with
    | zero => decide
    | succ k =>
      have hpos : ¬ ((Int.ofNat (k + 1)) < 0) := by
        simp only [Int.ofNat_eq_coe]; omega
      have hne : ¬ (Int.ofNat (k + 1) = 0) := by
        simp only [Int.ofNat_eq_coe]; omega
      simp only [to_string, decimalText, if_neg hpos, if_neg hne, List.nil_append]
      rw [toDigits_digits _ (by omega)]
      rfl
  | negSucc m =>
    have hneg : Int.negSucc m < 0 := Int.negSucc_lt_zero m
    have hne : ¬ (Int.negSucc m = 0) := by omega
    simp only [to_string, decimalText, if_pos hneg, if_neg hne, List.singleton_append]
    rw [toDigits_digits _ (by omega)]
    rfl

/-- C10: `setParameter` with the integer `v` leaves the client as
`setParameter` with the canonical decimal text of `v` does, and it appends
one string to the log of writes, namely "w ", the path, a space, that text
and a newline; so with 7 as with "7". -/
theorem setParameter_overloads_agree (path : Str) (v : Int) (c : Client) :
    setParameterLong path v c = setParameter path (decimalText v) c
    ∧ (setParameterLong path v c)._serial
      = { c._serial with
          tx := c._serial.tx
            ++ ["w ".toList ++ path ++ " ".toList ++ decimalText v ++ "\n".toList] }
    ∧ setParameterLong path 7 c = setParameter path "7".toList c := by
  refine ⟨?_, ?_, rfl⟩
  · rw [← to_string_eq_decimalText]; rfl
  · rw [← to_string_eq_decimalText]; rfl

/-! ## Lemmas on the effects of the operations on the transport -/

theorem readLineLoop_frame_aux :
    ∀ (fuel : Nat) (acc : Str) (rx : List Str) (tx : List Str) (n : Nat),
      readLineLoop fuel acc { rx := rx, tx := tx, recvCalls := n }
        = (readLineLoop fuel acc { rx := rx, tx := [], recvCalls := 0 }).map
            (fun r => (r.1, { rx := r.2.rx, tx := tx, recvCalls := n + r.2.recvCalls })) := by
  intro fuel
  induction fuel with
  | zero => intro acc rx tx n; rfl
  | succ k ih =>
    intro acc rx tx n
    cases rx with
    | nil =>
      simp only [readLineLoop, RPiSerial.recv]
      split
      · rw [ih (acc ++ []) [] tx (n + 1), ih (acc ++ []) [] [] (0 + 1)]
        simp [Option.map_map, Function.comp_def, Nat.add_assoc]
      · simp
    | cons chunk rest =>
      simp only [readLineLoop, RPiSerial.recv]
      split
      · rw [ih (acc ++ chunk) rest tx (n + 1), ih (acc ++ chunk) rest [] (0 + 1)]
        simp [Option.map_map, Function.comp_def, Nat.add_assoc]
      · simp

/-- The loop of the line reader looks at the pending chunks only: the log of
writes is kept and the count of `recv` calls grows by the calls made. -/
theorem readLineLoop_frame (fuel : Nat) (acc : Str) (serial : RPiSerial) :
    readLineLoop fuel acc serial
      = (readLineLoop fuel acc (RPiSerial.fresh serial.rx)).map
          (fun r => (r.1, { rx := r.2.rx, tx := serial.tx,
                            recvCalls := serial.recvCalls + r.2.recvCalls })) :=
  readLineLoop_frame_aux fuel acc serial.rx serial.tx serial.recvCalls

theorem readLine_frame (fuel : Nat) (serial : RPiSerial) :
    readLine fuel serial
      = (readLine fuel (RPiSerial.fresh serial.rx)).map
          (fun r => (r.1, { rx := r.2.rx, tx := serial.tx,
                            recvCalls := serial.recvCalls + r.2.recvCalls })) := by
  unfold readLine
  rw [readLineLoop_frame]
  cases readLineLoop fuel [] (RPiSerial.fresh serial.rx) with
  | none => rfl
  | some r => rfl

theorem readLine_tx (fuel : Nat) (serial serial' : RPiSerial) (line : Str)
    (h : readLine fuel serial = some (line, serial')) : serial'.tx = serial.tx := by
  rw [readLine_frame] at h
  cases hr : readLine fuel (RPiSerial.fresh serial.rx) with
  | none => rw [hr] at h; cases h
  | some r =>
    rw [hr] at h
    simp only [Option.map_some', Option.some.injEq, Prod.mk.injEq] at h
    rw [← h.2]

/-- The line reader at the first chunk with a newline, whose index is
`firstNewlineChunk`: its value, and the transport it leaves. -/
theorem readLine_of_firstNewlineChunk (serial : RPiSerial) (fuel : Nat)
    (h : ∃ c ∈ serial.rx, '\n' ∈ c) (hfuel : firstNewlineChunk serial.rx < fuel) :
    readLine fuel serial
      = some (((serial.rx.take (firstNewlineChunk serial.rx + 1)).flatten).takeWhile
            (fun x => x != '\n'),
          { serial with
            rx := serial.rx.drop (firstNewlineChunk serial.rx + 1),
            recvCalls := serial.recvCalls + firstNewlineChunk serial.rx + 1 }) := by
  obtain ⟨pre, c, post, hrx, hpre, hc⟩ := exists_first_newline_chunk serial.rx h
  have hk : firstNewlineChunk serial.rx = pre.length := by
    rw [hrx]; exact firstNewlineChunk_append pre c post hpre hc
  rw [hk] at hfuel ⊢
  rw [readLine_spec serial pre c post fuel hrx hpre hc hfuel, hrx]
  have htake : (pre ++ c :: post).take (pre.length + 1) = pre ++ [c] := by
    rw [List.take_append_eq_append_take]
    simp
  have hdrop : (pre ++ c :: post).drop (pre.length + 1) = post := by
    rw [List.drop_append_eq_append_drop]
    simp
  rw [htake, hdrop]

theorem readLineLoop_none (c : Str) (post : List Str) :
    ∀ (pre : List Str) (fuel : Nat) (acc : Str) (serial : RPiSerial),
      '\n' ∉ acc → (∀ p ∈ pre, '\n' ∉ p) → serial.rx = pre ++ c :: post → fuel ≤ pre.length →
      readLineLoop fuel acc serial = none := by
  intro pre
  induction pre with
  | nil =>
    intro fuel acc serial _ _ _ hfuel
    have h0 : fuel = 0 := by simpa using hfuel
    subst h0
    rfl
  | cons p pre ih =>
    intro fuel acc serial hacc hpre hrx hfuel
    cases fuel with
    | zero => rfl
    | succ n =>
      have hp : '\n' ∉ p := hpre p (by simp)
      have hacc' : '\n' ∉ acc ++ p := by simp [hacc, hp]
      simp only [readLineLoop, RPiSerial.recv, hrx, List.cons_append]
      rw [if_pos ((find_eq_none_iff _ _).2 hacc')]
      exact ih n (acc ++ p) _ hacc' (fun q hq => hpre q (by simp [hq])) rfl
        (by simpa using hfuel)

/-- With no more fuel than chunks before the first newline, the line reader
is still waiting. -/
theorem readLine_none_of_le (serial : RPiSerial) (fuel : Nat)
    (h : ∃ c ∈ serial.rx, '\n' ∈ c) (hfuel : fuel ≤ firstNewlineChunk serial.rx) :
    readLine fuel serial = none := by
  obtain ⟨pre, c, post, hrx, hpre, hc⟩ := exists_first_newline_chunk serial.rx h
  have hk : firstNewlineChunk serial.rx = pre.length := by
    rw [hrx]; exact firstNewlineChunk_append pre c post hpre hc
  rw [hk] at hfuel
  unfold readLine
  rw [readLineLoop_none c post pre fuel [] serial (by simp) hpre hrx hfuel]

/-! ## Clearing errors (C11) -/

/-- C11: on every client, whatever was done with it before, `clearErrors`
appends the one string "sc\n" to the log of writes and changes nothing
else: the pending chunks, the count of `recv` calls and the string stream
stay as they were. -/
theorem clearErrors_writes_sc (c : Client) :
    clearErrors c
      = { _serial := { rx := c._serial.rx, tx := c._serial.tx ++ ["sc\n".toList],
                       recvCalls := c._serial.recvCalls },
          _sstream := c._sstream } := rfl

/-! ## The state request (C16) -/

/-- C16: `setState(s, a)` appends one string to the log of writes, namely
"w axis", the decimal text of `a`, ".requested_state ", the decimal text of
the encoding of `s` and a newline; it leaves the pending chunks and the count
of `recv` calls as they were; and it leaves the client as `setParameter` with
the path "axis<a>.requested_state" and the encoding of `s` does. -/
theorem setState_writes_requested_state (s : ODriveAxisState) (a : Int) (c : Client) :
    (setState s a c)._serial
      = { rx := c._serial.rx,
          tx := c._serial.tx ++ ["w axis".toList ++ decimalText a ++ ".requested_state ".toList
            ++ decimalText s.code ++ "\n".toList],
          recvCalls := c._serial.recvCalls }
    ∧ setState s a c
      = setParameterLong ("axis".toList ++ decimalText a ++ ".requested_state".toList) s.code c := by
  rw [← to_string_eq_decimalText, ← to_string_eq_decimalText]
  refine ⟨?_, rfl⟩
  simp [setState, setParameter, RPiSerial.send]

/-! ## Reading a parameter as text (C17) -/

/-- C17: when some pending chunk holds a newline, `getParameterAsString`
(with more fuel than chunks before the first such chunk) appends the one
string "r ", the path, newline to the log of writes and returns the response
line as it is: all the text before the first newline of the chunks
received, nothing else removed. -/
theorem getParameterAsString_returns_line_verbatim (fuel : Nat) (path : Str) (c : Client)
    (h : ∃ chunk ∈ c._serial.rx, '\n' ∈ chunk)
    (hfuel : firstNewlineChunk c._serial.rx < fuel) :
    getParameterAsString fuel path c
      = some (((c._serial.rx.take (firstNewlineChunk c._serial.rx + 1)).flatten).takeWhile
            (fun x => x != '\n'),
          { _serial :=
              { rx := c._serial.rx.drop (firstNewlineChunk c._serial.rx + 1),
                tx := c._serial.tx ++ ["r ".toList ++ path ++ "\n".toList],
                recvCalls := c._serial.recvCalls + firstNewlineChunk c._serial.rx + 1 },
            _sstream := "r ".toList ++ path ++ "\n".toList }) := by
  unfold getParameterAsString
  simp only []
  rw [readLine_of_firstNewlineChunk (c._serial.send ("r ".toList ++ path ++ "\n".toList)) fuel
    h hfuel]
  rfl

/-- C17 at the responses "1.5\r\n" and " 7 \n": the carriage return and the
spaces are kept. -/
theorem getParameterAsString_returns_line_verbatim_witness :
    getParameterAsString 1 "vbus_voltage".toList (new (RPiSerial.ofChunks ["1.5\r\n"]))
      = some ("1.5\r".toList,
          { _serial := { rx := [], tx := ["r vbus_voltage\n".toList], recvCalls := 1 },
            _sstream := "r vbus_voltage\n".toList })
    ∧ getParameterAsString 1 "vbus_voltage".toList (new (RPiSerial.ofChunks [" 7 \n"]))
      = some (" 7 ".toList,
          { _serial := { rx := [], tx := ["r vbus_voltage\n".toList], recvCalls := 1 },
            _sstream := "r vbus_voltage\n".toList }) :=
  ⟨(getParameterAsString_returns_line_verbatim 1 "vbus_voltage".toList
      (new (RPiSerial.ofChunks ["1.5\r\n"])) (by decide) (by decide)).trans (by decide),
    (getParameterAsString_returns_line_verbatim 1 "vbus_voltage".toList
      (new (RPiSerial.ofChunks [" 7 \n"])) (by decide) (by decide)).trans (by decide)⟩

/-! ## The flush of the feedback query (C18) -/

/-- C20: when the first pending chunk with a newline is the chunk number `k`
(counted from 1, so `k` is `firstNewlineChunk` plus one), `readLine` returns
as soon as it has fuel for `k` receive calls, it has then made `k` calls of
`recv`, which is at least one, and the chunks after that chunk are still
pending; with fuel for fewer calls it is still waiting. -/
theorem readLine_reads_minimally (serial : RPiSerial) (fuel : Nat)
    (h : ∃ c ∈ serial.rx, '\n' ∈ c) :
    (firstNewlineChunk serial.rx + 1 ≤ fuel →
      ∃ line serial', readLine fuel serial = some (line, serial')
        ∧ serial'.recvCalls = serial.recvCalls + (firstNewlineChunk serial.rx + 1)
        ∧ serial'.rx = serial.rx.drop (firstNewlineChunk serial.rx + 1)
        ∧ serial'.tx = serial.tx)
    ∧ (fuel < firstNewlineChunk serial.rx + 1 → readLine fuel serial = none)
    ∧ 1 ≤ firstNewlineChunk serial.rx + 1 := by
  refine ⟨?_, ?_, by omega⟩
  · intro hfuel
    exact ⟨_, _, readLine_of_firstNewlineChunk serial fuel h (by omega), rfl, rfl, rfl⟩
  · intro hfuel
    exact readLine_none_of_le serial fuel h (by omega)

/-- C20 at the chunks "ab", "c\n", "d": two calls of `recv`, and "d" is
still pending; with fuel for one call the reader is still waiting. -/
theorem readLine_reads_minimally_witness :
    (∃ line serial', readLine 2 (RPiSerial.ofChunks ["ab", "c\n", "d"]) = some (line, serial')
        ∧ serial'.recvCalls = 0 + (1 + 1)
        ∧ serial'.rx = ["d".toList]
        ∧ serial'.tx = [])
    ∧ readLine 1 (RPiSerial.ofChunks ["ab", "c\n", "d"]) = none :=
  ⟨(readLine_reads_minimally (RPiSerial.ofChunks ["ab", "c\n", "d"]) 2 (by decide)).1
      (by decide),
    (readLine_reads_minimally (RPiSerial.ofChunks ["ab", "c\n", "d"]) 1 (by decide)).2.1
      (by decide)⟩

/-! ## What a line request leaves behind (C12, C13) -/

/-- C12, as amended: a line request does not read the chunks that follow
the chunk with the first newline.  They stay pending: the next `recv` call
returns the first of them, and when one of them holds a newline the next line
request returns the text before the first newline of their concatenation, so
its line starts with the trailing bytes. -/
theorem readLine_leaves_trailing_chunks (serial : RPiSerial) (fuel fuel2 : Nat)
    (h : ∃ c ∈ serial.rx, '\n' ∈ c) (hfuel : firstNewlineChunk serial.rx < fuel) :
    readLine fuel serial
      = some (((serial.rx.take (firstNewlineChunk serial.rx + 1)).flatten).takeWhile
            (fun x => x != '\n'),
          { serial with
            rx := serial.rx.drop (firstNewlineChunk serial.rx + 1),
            recvCalls := serial.recvCalls + firstNewlineChunk serial.rx + 1 })
    ∧ (RPiSerial.recv { serial with
            rx := serial.rx.drop (firstNewlineChunk serial.rx + 1),
            recvCalls := serial.recvCalls + firstNewlineChunk serial.rx + 1 }).1
      = (serial.rx.drop (firstNewlineChunk serial.rx + 1)).headD []
    ∧ ((∃ c ∈ serial.rx.drop (firstNewlineChunk serial.rx + 1), '\n' ∈ c) →
        firstNewlineChunk (serial.rx.drop (firstNewlineChunk serial.rx + 1)) < fuel2 →
        (readLine fuel2 { serial with
            rx := serial.rx.drop (firstNewlineChunk serial.rx + 1),
            recvCalls := serial.recvCalls + firstNewlineChunk serial.rx + 1 }).map Prod.fst
          = some ((((serial.rx.drop (firstNewlineChunk serial.rx + 1)).take
              (firstNewlineChunk (serial.rx.drop (firstNewlineChunk serial.rx + 1)) + 1)).flatten
              ).takeWhile (fun x => x != '\n'))) := by
  refine ⟨readLine_of_firstNewlineChunk serial fuel h hfuel, ?_, ?_⟩
  · cases hd : serial.rx.drop (firstNewlineChunk serial.rx + 1) with
    | nil => simp [RPiSerial.recv]
    | cons a t => simp [RPiSerial.recv]
  · intro h2 hfuel2
    rw [readLine_of_firstNewlineChunk _ fuel2 h2 hfuel2]
    rfl

/-- C12 at the chunks "ab", "c\n", "d", "e\n": the first line is "abc", the
chunk "d" is the next one received, and the second line is "de". -/
theorem readLine_leaves_trailing_chunks_witness :
    readLine 2 (RPiSerial.ofChunks ["ab", "c\n", "d", "e\n"])
      = some ("abc".toList, { rx := ["d".toList, "e\n".toList], tx := [], recvCalls := 2 })
    ∧ (RPiSerial.recv { rx := ["d".toList, "e\n".toList], tx := [], recvCalls := 2 }).1
      = "d".toList
    ∧ (readLine 2 { rx := ["d".toList, "e\n".toList], tx := [], recvCalls := 2 }).map Prod.fst
      = some "de".toList :=
  ⟨(readLine_leaves_trailing_chunks (RPiSerial.ofChunks ["ab", "c\n", "d", "e\n"]) 2 2
      (by decide) (by decide)).1.trans (by decide),
    (readLine_leaves_trailing_chunks (RPiSerial.ofChunks ["ab", "c\n", "d", "e\n"]) 2 2
      (by decide) (by decide)).2.1.trans (by decide),
    ((readLine_leaves_trailing_chunks (RPiSerial.ofChunks ["ab", "c\n", "d", "e\n"]) 2 2
      (by decide) (by decide)).2.2 (by decide) (by decide)).trans (by decide)⟩

/-- C12, as stated, fails: after the line request that returns "abc" from
the chunks "ab", "c\n", "d", the chunk "d" is still pending and the next
`recv` call returns it; with a further chunk "e\n" the next line request
returns "de". -/
theorem readLine_trailing_chunk_counterexample :
    readLine 2 (RPiSerial.ofChunks ["ab", "c\n", "d"])
      = some ("abc".toList, { rx := ["d".toList], tx := [], recvCalls := 2 })
    ∧ (RPiSerial.recv { rx := ["d".toList], tx := [], recvCalls := 2 }).1 = "d".toList
    ∧ readLine 2 (RPiSerial.ofChunks ["ab", "c\n", "d", "e\n"])
      = some ("abc".toList, { rx := ["d".toList, "e\n".toList], tx := [], recvCalls := 2 })
    ∧ readLine 2 { rx := ["d".toList, "e\n".toList], tx := [], recvCalls := 2 }
      = some ("de".toList, { rx := [], tx := [], recvCalls := 4 }) := by
  refine ⟨by decide, by decide, by decide, by decide⟩

/-- C13: when the chunk with the first newline is `a`, newline, `b`, the
line request returns the text up to `a` and leaves only the later chunks
`post` pending.  The bytes `b` are kept nowhere: the line that the next
request returns is the line that a reader returns on a transport that holds
just the chunks `post`. -/
theorem readLine_drops_bytes_after_newline (serial : RPiSerial) (pre : List Str)
    (a b : Str) (post : List Str) (fuel fuel2 : Nat)
    (hrx : serial.rx = pre ++ (a ++ '\n' :: b) :: post) (hpre : ∀ p ∈ pre, '\n' ∉ p)
    (ha : '\n' ∉ a) (hfuel : pre.length < fuel) :
    readLine fuel serial
      = some (pre.flatten ++ a,
          { serial with rx := post, recvCalls := serial.recvCalls + pre.length + 1 })
    ∧ (readLine fuel2
          { serial with rx := post, recvCalls := serial.recvCalls + pre.length + 1 }).map
        Prod.fst
      = (readLine fuel2 (RPiSerial.fresh post)).map Prod.fst := by
  constructor
  · rw [readLine_spec serial pre (a ++ '\n' :: b) post fuel hrx hpre (by simp) hfuel]
    have hall : ∀ x ∈ pre.flatten ++ a, (x != '\n') = true := by
      intro x hx
      have hne : x ≠ '\n' := by
        rintro rfl
        rcases List.mem_append.1 hx with hx | hx
        · obtain ⟨p, hp, hxp⟩ := List.mem_flatten.1 hx
          exact hpre p hp hxp
        · exact ha hx
      simpa using hne
    have hsplit : (pre ++ [a ++ '\n' :: b]).flatten = (pre.flatten ++ a) ++ '\n' :: b := by
      simp
    rw [hsplit, List.takeWhile_append_of_pos hall]
    simp [List.takeWhile]
  · rw [readLine_frame]
    cases readLine fuel2 (RPiSerial.fresh post) with
    | none => rfl
    | some r => rfl

/-- C13 at the chunks "ab", "c\nXY", "d\n": the first line is "abc", the
bytes "XY" are dropped and the second line is "d". -/
theorem readLine_drops_bytes_after_newline_witness :
    readLine 2 (RPiSerial.ofChunks ["ab", "c\nXY", "d\n"])
      = some ("abc".toList, { rx := ["d\n".toList], tx := [], recvCalls := 2 })
    ∧ (readLine 1 { rx := ["d\n".toList], tx := [], recvCalls := 2 }).map Prod.fst
      = some "d".toList :=
  ⟨(readLine_drops_bytes_after_newline (RPiSerial.ofChunks ["ab", "c\nXY", "d\n"])
      ["ab".toList] "c".toList "XY".toList ["d\n".toList] 2 1 rfl (by decide) (by decide)
      (by decide)).1,
    ((readLine_drops_bytes_after_newline (RPiSerial.ofChunks ["ab", "c\nXY", "d\n"])
      ["ab".toList] "c".toList "XY".toList ["d\n".toList] 2 1 rfl (by decide) (by decide)
      (by decide)).2).trans (by decide)⟩

/-! ## Empty reads (C14) -/

theorem flatten_of_emptyReadsInserted (l l' : List Str) (h : EmptyReadsInserted l l') :
    l'.flatten = l.flatten := by
  induction h with
  | nil => rfl
  | keep chunk _ ih => simp [ih]
  | insert _ ih => simp [ih]

theorem no_newline_of_emptyReadsInserted (l l' : List Str) (h : EmptyReadsInserted l l')
    (hl : ∀ p ∈ l, '\n' ∉ p) : ∀ p ∈ l', '\n' ∉ p := by
  induction h with
  | nil => exact hl
  | keep chunk _ ih =>
    intro p hp
    rcases List.mem_cons.1 hp with rfl | hp
    · exact hl _ (by simp)
    · exact ih (fun q hq => hl q (by simp [hq])) p hp
  | insert _ ih =>
    intro p hp
    rcases List.mem_cons.1 hp with rfl | hp
    · simp
    · exact ih hl p hp

/-- C14: let the chunks before the chunk `c` with the first newline be
`pre` on one transport and, on another, `pre` with empty chunks inserted at
any places.  With fuel for all the receive calls the line reader returns the
same line on both; on the second it has made one `recv` call for each chunk,
the empty ones included. -/
theorem readLine_ignores_empty_reads (serial serial' : RPiSerial) (pre pre' : List Str)
    (c : Str) (post : List Str) (fuel fuel' : Nat)
    (hrx : serial.rx = pre ++ c :: post) (hrx' : serial'.rx = pre' ++ c :: post)
    (hins : EmptyReadsInserted pre pre') (hpre : ∀ p ∈ pre, '\n' ∉ p) (hc : '\n' ∈ c)
    (hfuel : pre.length < fuel) (hfuel' : pre'.length < fuel') :
    readLine fuel serial
      = some (((pre ++ [c]).flatten).takeWhile (fun x => x != '\n'),
          { serial with rx := post, recvCalls := serial.recvCalls + pre.length + 1 })
    ∧ readLine fuel' serial'
      = some (((pre ++ [c]).flatten).takeWhile (fun x => x != '\n'),
          { serial' with rx := post, recvCalls := serial'.recvCalls + pre'.length + 1 }) := by
  refine ⟨readLine_spec serial pre c post fuel hrx hpre hc hfuel, ?_⟩
  rw [readLine_spec serial' pre' c post fuel' hrx'
    (no_newline_of_emptyReadsInserted pre pre' hins hpre) hc hfuel']
  rw [List.flatten_append, List.flatten_append, flatten_of_emptyReadsInserted pre pre' hins]

/-- C14 at the chunks "ab", "c\n" and, with three empty reads, "", "ab", "",
"", "c\n": the line is "abc" on both, after 2 and after 5 calls of `recv`. -/
theorem readLine_ignores_empty_reads_witness :
    readLine 2 (RPiSerial.ofChunks ["ab", "c\n"])
      = some ("abc".toList, { rx := [], tx := [], recvCalls := 2 })
    ∧ readLine 5 (RPiSerial.ofChunks ["", "ab", "", "", "c\n"])
      = some ("abc".toList, { rx := [], tx := [], recvCalls := 5 }) :=
  ⟨(readLine_ignores_empty_reads (RPiSerial.ofChunks ["ab", "c\n"])
      (RPiSerial.ofChunks ["", "ab", "", "", "c\n"]) ["ab".toList]
      [[], "ab".toList, [], []] "c\n".toList [] 2 5 rfl rfl
      (.insert (.keep _ (.insert (.insert .nil)))) (by decide) (by decide) (by decide)
      (by decide)).1.trans (by decide),
    (readLine_ignores_empty_reads (RPiSerial.ofChunks ["ab", "c\n"])
      (RPiSerial.ofChunks ["", "ab", "", "", "c\n"]) ["ab".toList]
      [[], "ab".toList, [], []] "c\n".toList [] 2 5 rfl rfl
      (.insert (.keep _ (.insert (.insert .nil)))) (by decide) (by decide) (by decide)
      (by decide)).2.trans (by decide)⟩

/-! ## The commands written (C15, C19) -/

theorem getParameterAsString_tx (fuel : Nat) (path : Str) (c c' : Client) (line : Str)
    (h : getParameterAsString fuel path c = some (line, c')) :
    c'._serial.tx = c._serial.tx ++ [readCommand path] := by
  unfold getParameterAsString at h
  simp only [] at h
  cases hr : readLine fuel (c._serial.send ("r ".toList ++ path ++ "\n".toList)) with
  | none => rw [hr] at h; cases h
  | some r =>
    obtain ⟨line', serial'⟩ := r
    rw [hr] at h
    simp only [Option.some.injEq, Prod.mk.injEq] at h
    rw [← h.2]
    exact readLine_tx _ _ _ _ hr

theorem getParameterAsInt_tx (fuel : Nat) (path : Str) (c c' : Client)
    (r : Except StdError Int) (h : getParameterAsInt fuel path c = some (r, c')) :
    c'._serial.tx = c._serial.tx ++ [readCommand path] := by
  unfold getParameterAsInt at h
  cases hs : getParameterAsString fuel path c with
  | none => rw [hs] at h; cases h
  | some q =>
    obtain ⟨line, c1⟩ := q
    rw [hs] at h
    simp only [Option.some.injEq, Prod.mk.injEq] at h
    rw [← h.2]
    exact getParameterAsString_tx fuel path c c1 line hs

theorem getParameterAsFloat_tx {F : Type} (L : FloatLib F) (fuel : Nat) (path : Str)
    (c c' : Client) (r : Except StdError F)
    (h : getParameterAsFloat L fuel path c = some (r, c')) :
    c'._serial.tx = c._serial.tx ++ [readCommand path] := by
  unfold getParameterAsFloat at h
  cases hs : getParameterAsString fuel path c with
  | none => rw [hs] at h; cases h
  | some q =>
    obtain ⟨line, c1⟩ := q
    rw [hs] at h
    simp only [Option.some.injEq, Prod.mk.injEq] at h
    rw [← h.2]
    exact getParameterAsString_tx fuel path c c1 line hs

theorem getState_tx (fuel : Nat) (motorNum : Int) (c c' : Client)
    (r : Except StdError ODriveAxisState) (h : getState fuel motorNum c = some (r, c')) :
    c'._serial.tx = c._serial.tx ++ [readCommand (currentStatePath motorNum)] := by
  unfold getState at h
  simp only [] at h
  cases hs : getParameterAsInt fuel
      ("axis".toList ++ to_string motorNum ++ ".current_state".toList)
      { c with _sstream := "axis".toList ++ to_string motorNum ++ ".current_state".toList } with
  | none => rw [hs] at h; cases h
  | some q =>
    obtain ⟨v, c1⟩ := q
    rw [hs] at h
    simp only [Option.some.injEq, Prod.mk.injEq] at h
    rw [← h.2]
    exact getParameterAsInt_tx fuel _ _ c1 v hs

theorem getFeedback_tx {F : Type} (L : FloatLib F) (fuel : Nat) (motorNum : Int)
    (c c' : Client) (r : Except StdError (ODriveFeedback F))
    (h : getFeedback L fuel motorNum c = some (r, c')) :
    c'._serial.tx = c._serial.tx ++ [feedbackCommand motorNum] := by
  unfold getFeedback at h
  simp only [] at h
  cases hr : readLine fuel
      (c._serial.recv.2.send ("f ".toList ++ to_string motorNum ++ "\n".toList)) with
  | none => rw [hr] at h; cases h
  | some q =>
    obtain ⟨line, serial'⟩ := q
    rw [hr] at h
    simp only [Option.some.injEq, Prod.mk.injEq] at h
    rw [← h.2]
    have htx := readLine_tx _ _ _ _ hr
    have hrecv : c._serial.recv.2.tx = c._serial.tx := by
      unfold RPiSerial.recv
      split <;> rfl
    simp only [htx, RPiSerial.send, hrecv]
    rfl

theorem getPosition_tx {F : Type} (L : FloatLib F) (fuel : Nat) (motorNum : Int)
    (c c' : Client) (r : Except StdError F)
    (h : getPosition L fuel motorNum c = some (r, c')) :
    c'._serial.tx = c._serial.tx ++ [feedbackCommand motorNum] := by
  unfold getPosition at h
  cases hs : getFeedback L fuel motorNum c with
  | none => rw [hs] at h; cases h
  | some q =>
    obtain ⟨v, c1⟩ := q
    rw [hs] at h
    simp only [Option.some.injEq, Prod.mk.injEq] at h
    rw [← h.2]
    exact getFeedback_tx L fuel motorNum c c1 v hs

theorem getVelocity_tx {F : Type} (L : FloatLib F) (fuel : Nat) (motorNum : Int)
    (c c' : Client) (r : Except StdError F)
    (h : getVelocity L fuel motorNum c = some (r, c')) :
    c'._serial.tx = c._serial.tx ++ [feedbackCommand motorNum] := by
  unfold getVelocity at h
  cases hs : getFeedback L fuel motorNum c with
  | none => rw [hs] at h; cases h
  | some q =>
    obtain ⟨v, c1⟩ := q
    rw [hs] at h
    simp only [Option.some.injEq, Prod.mk.injEq] at h
    rw [← h.2]
    exact getFeedback_tx L fuel motorNum c c1 v hs

/-- Each operation that ends appends its command, and nothing else, to the
log of writes. -/
theorem run_tx {F : Type} (L : FloatLib F) (op : Operation F) (c c' : Client)
    (hrun : op.run L c = some c') :
    c'._serial.tx = c._serial.tx ++ [op.command L] := by
  cases op with
  | clearErrors => cases hrun; rfl
  | setPosition p v t a => cases hrun; rfl
  | setPositionVel p v a => cases hrun; rfl
  | setPositionOnly p a => cases hrun; rfl
  | setParameter path value => cases hrun; rfl
  | setParameterLong path value => cases hrun; rfl
  | setState s a => cases hrun; rfl
  | getFeedback fuel a =>
    simp only [Operation.run, Option.map_eq_some', Prod.exists] at hrun
    obtain ⟨r, c1, h, rfl⟩ := hrun
    exact getFeedback_tx L fuel a c c1 r h
  | getPosition fuel a =>
    simp only [Operation.run, Option.map_eq_some', Prod.exists] at hrun
    obtain ⟨r, c1, h, rfl⟩ := hrun
    exact getPosition_tx L fuel a c c1 r h
  | getVelocity fuel a =>
    simp only [Operation.run, Option.map_eq_some', Prod.exists] at hrun
    obtain ⟨r, c1, h, rfl⟩ := hrun
    exact getVelocity_tx L fuel a c c1 r h
  | getParameterAsString fuel path =>
    simp only [Operation.run, Option.map_eq_some', Prod.exists] at hrun
    obtain ⟨r, c1, h, rfl⟩ := hrun
    exact getParameterAsString_tx fuel path c c1 r h
  | getParameterAsInt fuel path =>
    simp only [Operation.run, Option.map_eq_some', Prod.exists] at hrun
    obtain ⟨r, c1, h, rfl⟩ := hrun
    exact getParameterAsInt_tx fuel path c c1 r h
  | getParameterAsFloat fuel path =>
    simp only [Operation.run, Option.map_eq_some', Prod.exists] at hrun
    obtain ⟨r, c1, h, rfl⟩ := hrun
    exact getParameterAsFloat_tx L fuel path c c1 r h
  | getState fuel a =>
    simp only [Operation.run, Option.map_eq_some', Prod.exists] at hrun
    obtain ⟨r, c1, h, rfl⟩ := hrun
    exact getState_tx fuel a c c1 r h

theorem newline_not_mem_to_string (n : Int) : '\n' ∉ to_string n := by
  have hdig : ∀ m : Nat, '\n' ∉ Nat.toDigits 10 m := by
    intro m hmem
    have h := (toDigits_spec m).2.1 '\n' hmem
    revert h
    decide
  cases n with
  | ofNat m => exact hdig m
  | negSucc m =>
    intro hmem
    rcases List.mem_cons.1 hmem with h | h
    · revert h; decide
    · exact hdig _ h

theorem getLast?_append_newline (body : Str) :
    (body ++ "\n".toList).getLast? = some '\n' := by
  show (body ++ ['\n']).getLast? = some '\n'
  simp

theorem endsWithOneNewline_append (body : Str) (h : '\n' ∉ body) :
    EndsWithOneNewline (body ++ "\n".toList) := by
  refine ⟨getLast?_append_newline body, ?_⟩
  show (body ++ ['\n']).count '\n' = 1
  rw [List.count_append, List.count_eq_zero_of_not_mem h]
  rfl

theorem command_getLast? {F : Type} (L : FloatLib F) (op : Operation F) :
    (op.command L).getLast? = some '\n' := by
  cases op <;>
    first
    | exact getLast?_append_newline _
    | rfl

theorem command_endsWithOneNewline {F : Type} (L : FloatLib F) (op : Operation F)
    (hfmt : ∀ x, '\n' ∉ L.format x) (htexts : op.TextsHoldNoNewline) :
    EndsWithOneNewline (op.command L) := by
  have hint := newline_not_mem_to_string
  have hp : '\n' ∉ "p ".toList := by decide
  have hr : '\n' ∉ "r ".toList := by decide
  have hw : '\n' ∉ "w ".toList := by decide
  have hf : '\n' ∉ "f ".toList := by decide
  have hs : '\n' ∉ " ".toList := by decide
  have ha : '\n' ∉ "axis".toList := by decide
  have hq : '\n' ∉ ".requested_state".toList := by decide
  have hc : '\n' ∉ ".current_state".toList := by decide
  cases op with
  | clearErrors =>
    show EndsWithOneNewline "sc\n".toList
    decide
  | setPosition p v t a =>
    apply endsWithOneNewline_append
    simp [List.mem_append, hint, hfmt, hp, hs]
  | setPositionVel p v a =>
    apply endsWithOneNewline_append
    simp [List.mem_append, hint, hfmt, hp, hs]
  | setPositionOnly p a =>
    apply endsWithOneNewline_append
    simp [List.mem_append, hint, hfmt, hp, hs]
  | getFeedback fuel a =>
    apply endsWithOneNewline_append
    simp [List.mem_append, hint, hf]
  | getPosition fuel a =>
    apply endsWithOneNewline_append
    simp [List.mem_append, hint, hf]
  | getVelocity fuel a =>
    apply endsWithOneNewline_append
    simp [List.mem_append, hint, hf]
  | getParameterAsString fuel path =>
    apply endsWithOneNewline_append
    have hpath : '\n' ∉ path := htexts
    simp [List.mem_append, hr, hpath]
  | getParameterAsInt fuel path =>
    apply endsWithOneNewline_append
    have hpath : '\n' ∉ path := htexts
    simp [List.mem_append, hr, hpath]
  | getParameterAsFloat fuel path =>
    apply endsWithOneNewline_append
    have hpath : '\n' ∉ path := htexts
    simp [List.mem_append, hr, hpath]
  | setParameter path value =>
    apply endsWithOneNewline_append
    have hpath : '\n' ∉ path := htexts.1
    have hvalue : '\n' ∉ value := htexts.2
    simp [List.mem_append, hw, hs, hpath, hvalue]
  | setParameterLong path value =>
    apply endsWithOneNewline_append
    have hpath : '\n' ∉ path := htexts
    simp [List.mem_append, hw, hs, hpath, hint]
  | setState s a =>
    apply endsWithOneNewline_append
    simp [requestedStatePath, List.mem_append, hw, hs, ha, hq, hint]
  | getState fuel a =>
    apply endsWithOneNewline_append
    simp [currentStatePath, List.mem_append, hr, ha, hc, hint]

theorem runAll_append {F : Type} (L : FloatLib F) (history : List (Operation F))
    (op : Operation F) (c0 : Client) :
    runAll L (history ++ [op]) c0 = (runAll L history c0).bind (op.run L) := by
  induction history generalizing c0 with
  | nil =>
    simp only [List.nil_append, runAll, Option.some_bind]
    cases op.run L c0 <;> rfl
  | cons first rest ih =>
    simp only [List.cons_append, runAll]
    cases first.run L c0 with
    | none => rfl
    | some c1 => exact ih c1

/-- C15, as amended: every operation that ends has appended one string to
the log of writes, its command, and that command ends with a newline.  When
the path and value texts among the arguments hold no newline (and no text of
a `float` holds one), the command holds that one newline only. -/
theorem each_command_ends_with_newline {F : Type} (L : FloatLib F) (op : Operation F)
    (c c' : Client) (hrun : op.run L c = some c') :
    c'._serial.tx = c._serial.tx ++ [op.command L]
    ∧ (op.command L).getLast? = some '\n'
    ∧ ((∀ x, '\n' ∉ L.format x) → op.TextsHoldNoNewline →
        EndsWithOneNewline (op.command L)) :=
  ⟨run_tx L op c c' hrun, command_getLast? L op, command_endsWithOneNewline L op⟩

theorem wholeFloats_format_no_newline (x : Option Int) : '\n' ∉ wholeFloats.format x := by
  cases x with
  | none => show '\n' ∉ "nan".toList; decide
  | some n => exact newline_not_mem_to_string n

/-- C15 at `setParameter("vel_limit", "2")` and at `getFeedback(0)` with
the response "1 2\n". -/
theorem each_command_ends_with_newline_witness :
    ((setParameter "vel_limit".toList "2".toList (new (RPiSerial.ofChunks [])))._serial.tx
        = [] ++ ["w vel_limit 2\n".toList]
      ∧ ("w vel_limit 2\n".toList).getLast? = some '\n'
      ∧ EndsWithOneNewline "w vel_limit 2\n".toList)
    ∧ (({ _serial := { rx := [], tx := ["f 0\n".toList], recvCalls := 2 },
          _sstream := "f 0\n".toList } : Client)._serial.tx = [] ++ ["f 0\n".toList]
      ∧ ("f 0\n".toList).getLast? = some '\n'
      ∧ EndsWithOneNewline "f 0\n".toList) :=
  ⟨⟨(each_command_ends_with_newline wholeFloats
        (.setParameter "vel_limit".toList "2".toList) (new (RPiSerial.ofChunks []))
        (setParameter "vel_limit".toList "2".toList (new (RPiSerial.ofChunks []))) rfl).1,
      (each_command_ends_with_newline wholeFloats
        (.setParameter "vel_limit".toList "2".toList) (new (RPiSerial.ofChunks []))
        (setParameter "vel_limit".toList "2".toList (new (RPiSerial.ofChunks []))) rfl).2.1,
      (each_command_ends_with_newline wholeFloats
        (.setParameter "vel_limit".toList "2".toList) (new (RPiSerial.ofChunks []))
        (setParameter "vel_limit".toList "2".toList (new (RPiSerial.ofChunks []))) rfl).2.2
        wholeFloats_format_no_newline
        (show '\n' ∉ "vel_limit".toList ∧ '\n' ∉ "2".toList from by decide)⟩,
    ⟨(each_command_ends_with_newline wholeFloats (.getFeedback 2 0)
        (new (RPiSerial.ofChunks ["", "1 2\n"]))
        { _serial := { rx := [], tx := ["f 0\n".toList], recvCalls := 2 },
          _sstream := "f 0\n".toList } (by decide)).1,
      (each_command_ends_with_newline wholeFloats (.getFeedback 2 0)
        (new (RPiSerial.ofChunks ["", "1 2\n"]))
        { _serial := { rx := [], tx := ["f 0\n".toList], recvCalls := 2 },
          _sstream := "f 0\n".toList } (by decide)).2.1,
      (each_command_ends_with_newline wholeFloats (.getFeedback 2 0)
        (new (RPiSerial.ofChunks ["", "1 2\n"]))
        { _serial := { rx := [], tx := ["f 0\n".toList], recvCalls := 2 },
          _sstream := "f 0\n".toList } (by decide)).2.2
        wholeFloats_format_no_newline trivial⟩⟩

/-- C15, as stated, fails: `setParameter` forwards a path with a newline as
it is, and the string written, "w a\nb 1\n", holds two newlines. -/
theorem setParameter_newline_in_path_counterexample :
    (setParameter "a\nb".toList "1".toList (new (RPiSerial.ofChunks [])))._serial.tx
      = ["w a\nb 1\n".toList]
    ∧ ("w a\nb 1\n".toList).count '\n' = 2
    ∧ ¬ EndsWithOneNewline "w a\nb 1\n".toList := by
  refine ⟨by decide, by decide, by decide⟩

/-- C19: after any sequence `history` of operations on a client, an
operation `op` that ends has appended one string to the log of writes:
`op.command`, a text made from the arguments of `op` alone, in which neither
the history nor the contents of the string stream occur. -/
theorem commands_are_history_independent {F : Type} (L : FloatLib F)
    (history : List (Operation F)) (op : Operation F) (c0 c' : Client)
    (hrun : runAll L (history ++ [op]) c0 = some c') :
    ∃ c, runAll L history c0 = some c ∧ op.run L c = some c'
      ∧ c'._serial.tx = c._serial.tx ++ [op.command L] := by
  rw [runAll_append] at hrun
  cases hc : runAll L history c0 with
  | none => rw [hc] at hrun; cases hrun
  | some c =>
    rw [hc] at hrun
    exact ⟨c, rfl, hrun, run_tx L op c c' hrun⟩

/-- C19 at the history `setState(8, 0)`, `getParameterAsString("vbus_voltage")`
and the operation `getFeedback(0)`: the string written is "f 0\n". -/
theorem commands_are_history_independent_witness :
    ∃ c, runAll textFloats
          [.setState { code := 8 } 0, .getParameterAsString 1 "vbus_voltage".toList]
          (new (RPiSerial.ofChunks ["24.1\n", "", "1.5 2\n"])) = some c
      ∧ (Operation.getFeedback 2 0).run textFloats c
        = some { _serial :=
                  { rx := [],
                    tx := ["w axis0.requested_state 8\n".toList, "r vbus_voltage\n".toList,
                      "f 0\n".toList],
                    recvCalls := 3 },
                 _sstream := "f 0\n".toList }
      ∧ ["w axis0.requested_state 8\n".toList, "r vbus_voltage\n".toList, "f 0\n".toList]
        = c._serial.tx ++ [(Operation.getFeedback 2 0).command textFloats] :=
  commands_are_history_independent textFloats
    [.setState { code := 8 } 0, .getParameterAsString 1 "vbus_voltage".toList]
    (.getFeedback 2 0) (new (RPiSerial.ofChunks ["24.1\n", "", "1.5 2\n"]))
    { _serial :=
        { rx := [],
          tx := ["w axis0.requested_state 8\n".toList, "r vbus_voltage\n".toList,
            "f 0\n".toList],
          recvCalls := 3 },
      _sstream := "f 0\n".toList }
    (by decide)

end ODriveRPi
